import Mathlib

/-
Verification of the unocab UNO engine (src/game.ts, src/types.ts, src/utils.ts,
src/errors.ts) against its natural-language specification.

The development is a shallow embedding: the TypeScript class `Game` keeps one
mutable record `_state`; every method is embedded as an explicit state-passing
function `GameState → Res α`, where `Res` mirrors the fact that a TypeScript
exception leaves the mutations performed so far in place (`Res.err` carries the
state at the moment of the throw).  JavaScript numbers that only ever hold
integers (seeds, indices, counters) are modeled as `Int`/`Nat`; the 32-bit
coercions performed by the bitwise operators and `Math.imul` are made explicit
(`u32`, `imul`).  `random()` returns the numerator `u` of the produced float
`u / 2^32`, which is exact; the single consumer `Math.floor(random() * (i+1))`
is then the exact natural division `u * (i+1) / 2^32`.
-/

set_option maxRecDepth 100000

namespace Unocab

/-- Card colors (types.ts `cardColor`). -/
inductive CardColor where
  | red | blue | green | yellow
deriving DecidableEq, Repr

/-- Card ranks (types.ts `allCards`): numeric ranks, the non-color-switching
specials, and the color-switching specials. -/
inductive CardType where
  | zero | one | two | three | four | five | six | seven | eight | nine
  | plusTwo | reverse | skip
  | plusFour | colorChooser
deriving DecidableEq, Repr

/-- types.ts `colorSwitchingScs`. -/
def isColorSwitching : CardType → Bool
  | .plusFour => true
  | .colorChooser => true
  | _ => false

/-- types.ts `Card`: a rank together with an optional color (absent on the
color-switching specials). -/
structure Card where
  type : CardType
  color : Option CardColor
deriving DecidableEq, Repr

/-- types.ts `PlayerId`. -/
abbrev PlayerId := String

/-- utils.ts `ENGINE_ID`. -/
def ENGINE_ID : PlayerId := "ENGINE"

/-- utils.ts `MIN_PLAYERS`. -/
def MIN_PLAYERS : Nat := 2

/-- utils.ts `MAX_PLAYERS`. -/
def MAX_PLAYERS : Nat := 10

/-- utils.ts `MAX_SHORTHAND_EVENTS`. -/
def MAX_SHORTHAND_EVENTS : Nat := 5

/-- types.ts `GameEvent`: the five player-initiated (domain) moves. -/
inductive GameEvent where
  | card_played (by_ : PlayerId) (card : Card)
  | bluff_called (by_ : PlayerId)
  | draw (by_ : PlayerId)
  | pass (by_ : PlayerId)
  | chooseColor (by_ : PlayerId) (color : CardColor)
deriving DecidableEq, Repr

/-- The `by` field every domain event carries. -/
def eventBy : GameEvent → PlayerId
  | .card_played p _ => p
  | .bluff_called p => p
  | .draw p => p
  | .pass p => p
  | .chooseColor p _ => p

/-- types.ts `InfoEvent.info`: engine-generated administrative event payloads. -/
inductive InfoEvent where
  | bluff_called_info (by_ : PlayerId)
  | bluff_call_succeeded (by_ : PlayerId) (of : PlayerId)
  | bluff_call_failed (by_ : PlayerId) (of : PlayerId)
  | seed_changed (newSeed : Int)
  | player_won (id : PlayerId)
  | game_ended (loser : PlayerId)
  | player_joined (id : PlayerId)
  | player_left (id : PlayerId)
  | pile_to_deck
deriving DecidableEq, Repr

/-- An entry of `state.events`: a domain move (`GameEvent`) or an
administrative `game_info` event. -/
inductive LogEvent where
  | game (e : GameEvent)
  | info (i : InfoEvent)
deriving DecidableEq, Repr

/-- errors.ts `UECode`, with the carried `UEData` inlined as constructor
arguments.  `Unreachable` stands for the plain `throw "unreachable"` at the end
of `processNewEvent` (and for non-null-assertion crashes guarded by earlier
checks); `NotFullMode` and `InvalidEventIndex` are the two plain `Error`s
thrown by `jumpToEventIndex`; `ZodParseFailed` is the exception raised by
`gameState.parse` when deserialising an invalid snapshot. -/
inductive UErr where
  | GameEnded (loser : PlayerId)
  | MustPickColor (performedEvent : GameEvent)
  | MustNotPlayLastCardColorChanging (performedEvent : GameEvent)
  | MustDrawOrPlusTwo (performedEvent : GameEvent)
  | MustDrawOrCallBluff (performedEvent : GameEvent)
  | MustPlayExpectedCard (expectedType : Option CardType)
      (expectedColor : Option CardColor) (found : Card)
  | MustNotDrawTwice
  | MustNotPassWithoutDraw
  | CannotCallBluff
  | CannotSwitchColors
  | TooFewPlayers (playerCount : Nat)
  | TooManyPlayers (playerCount : Nat)
  | InvalidId (id : PlayerId)
  | NotPlayersTurn (playerId : PlayerId)
  | PlayerNotInGame (playerId : PlayerId)
  | PlayerDoesntHaveCard (playerId : PlayerId) (card : Card)
  | DeckPileExhausted
  | Unreachable
  | NotFullMode
  | InvalidEventIndex
  | ZodParseFailed
deriving DecidableEq, Repr

/-- types.ts `ProcessEventResult` (the `formatted` display strings, which are
pure functions of the other fields, are omitted).  The `card_played` variant is
declared in types.ts but never produced by `processNewEvent`. -/
inductive ProcessResult where
  | card_played (card : Card)
  | player_win_game_end (won : PlayerId) (lost : PlayerId)
  | player_win (won : PlayerId)
  | drawing_cards (cards : List Card)
  | turn_passed
  | bluff_call_succeeded (by_ : PlayerId) (of : PlayerId)
  | bluff_call_failed (by_ : PlayerId) (of : PlayerId)
  | color_changed (toColor : CardColor)
deriving DecidableEq, Repr

/-- types.ts `GameState`, with the `cache` sub-object flattened into the same
record.  JavaScript object key order is insertion order, so `cache.hands` is an
association list (`setHand` below reproduces assignment semantics: overwrite in
place, or append a new key). -/
structure GameState where
  shorthandMode : Bool
  index : Int
  initialSeed : Int
  players : List PlayerId
  stackPlusTwos : Bool
  hands : List (PlayerId × List Card)
  deck : List Card
  seed : Int
  stackedPlusTwos : Nat
  turnStep : Int
  ended : Bool
  pile : List Card
  last3CardPlayOrColorChanges : List (Card ⊕ CardColor)
  events : List LogEvent
deriving DecidableEq, Repr

/-- Outcome of running one engine method: a TypeScript return (`ok`) or a
thrown exception (`err`).  Both carry the state of `_state` at that moment —
a throw does NOT roll back mutations already performed. -/
inductive Res (α : Type) where
  | ok (val : α) (st : GameState)
  | err (e : UErr) (st : GameState)
deriving DecidableEq, Repr

/-- The state held by the engine after a call, whether it returned or threw. -/
def resState : Res α → GameState
  | .ok _ s => s
  | .err _ s => s

/-- The error thrown by a call, if any. -/
def resErr : Res α → Option UErr
  | .ok _ _ => none
  | .err e _ => some e

-- ─── Association-list hands ──────────────────────────────────────────────────

/-- `hands[p]` (JavaScript property read). -/
def lookupHand : List (PlayerId × List Card) → PlayerId → Option (List Card)
  | [], _ => none
  | (q, h) :: rest, p => if q = p then some h else lookupHand rest p

/-- `hands[p] = h` (JavaScript property write: overwrite in place, else append). -/
def setHand : List (PlayerId × List Card) → PlayerId → List Card →
    List (PlayerId × List Card)
  | [], p, h => [(p, h)]
  | (q, h0) :: rest, p, h =>
      if q = p then (q, h) :: rest else (q, h0) :: setHand rest p h

-- ─── JavaScript array helpers ────────────────────────────────────────────────

/-- `Array.prototype.at(i)` with a possibly negative index. -/
def jsAt (l : List α) (i : Int) : Option α :=
  if i < 0 then
    (if (l.length : Int) + i < 0 then none else l[((l.length : Int) + i).toNat]?)
  else l[i.toNat]?

/-- `Array.prototype.slice(start, stop)` index normalisation. -/
def jsSliceIdx (len : Nat) (i : Int) : Nat :=
  if i < 0 then (max ((len : Int) + i) 0).toNat else min i.toNat len

/-- `Array.prototype.slice(start, stop)` (`stop = none` means absent). -/
def jsSlice (l : List α) (start : Int) (stop : Option Int) : List α :=
  let s := jsSliceIdx l.length start
  let e := match stop with
    | none => l.length
    | some j => jsSliceIdx l.length j
  (l.take e).drop s

/-- One JavaScript destructuring swap `[a[i], a[j]] = [a[j], a[i]]`. -/
def listSwap (l : List α) (i j : Nat) : List α :=
  match l[i]?, l[j]? with
  | some a, some b => (l.set i b).set j a
  | _, _ => l

-- ─── Deterministic RNG (game.ts `random`, mulberry32) ────────────────────────

/-- JavaScript `ToUint32`: the unsigned 32-bit pattern of a number.  All the
bitwise operators of `random`/`cyrb128` act on this pattern; signed (`ToInt32`)
and unsigned representatives agree modulo 2^32, and `Math.imul` and `+` only
depend on the arguments modulo 2^32, so computing on unsigned patterns is
exact. -/
def u32 (n : Int) : Nat := (n % 4294967296).toNat

/-- `Math.imul` on unsigned 32-bit patterns. -/
def imul (a b : Nat) : Nat := (a * b) % 4294967296

/-- game.ts `random()` (mulberry32).  `_state.cache.seed += 0x6d2b79f5` is an
exact float addition (the seed only ever grows by small multiples of a 32-bit
constant); the returned float is `u / 2^32` for the `u : Nat` produced here. -/
def random (g : GameState) : Nat × GameState :=
  let seed2 := g.seed + 0x6d2b79f5
  let t0 := u32 seed2
  let t1 := imul (t0 ^^^ (t0 >>> 15)) (t0 ||| 1)
  let t2 := t1 ^^^ ((t1 + imul (t1 ^^^ (t1 >>> 7)) (t1 ||| 61)) % 4294967296)
  (t2 ^^^ (t2 >>> 14), { g with seed := seed2 })

-- ─── Event log (game.ts `recordEvent`) ───────────────────────────────────────

/-- game.ts `recordEvent`: full mode appends everything; shorthand mode drops
`game_info` events and keeps a FIFO window of `MAX_SHORTHAND_EVENTS` domain
moves. -/
def recordEvent (g : GameState) (e : LogEvent) : GameState :=
  if g.shorthandMode then
    match e with
    | .info _ => g
    | .game _ =>
        let evs := if g.events.length = MAX_SHORTHAND_EVENTS
          then g.events.drop 1 else g.events
        { g with events := evs ++ [e] }
  else { g with events := g.events ++ [e] }

-- ─── Deck construction and shuffling ─────────────────────────────────────────

/-- utils.ts `DECK` helper: the thirteen ranks that occur twice per color. -/
def twoCardTypes : List CardType :=
  [.one, .two, .three, .four, .five, .six, .seven, .eight, .nine,
   .plusTwo, .reverse, .skip]

/-- utils.ts `DECK`: one zero per color, two of each other colored rank per
color, four of each color-switching special — 108 cards, in the construction
order of the source (which matters, because the shuffle is seeded). -/
def DECK : List Card :=
  ([CardColor.red, .blue, .green, .yellow].map fun c => ⟨.zero, some c⟩)
  ++ ([CardColor.red, .blue, .green, .yellow].flatMap fun c =>
        twoCardTypes.flatMap fun t => [⟨t, some c⟩, ⟨t, some c⟩])
  ++ ([CardType.plusFour, .colorChooser].flatMap fun t => [⟨t, none⟩, ⟨t, none⟩, ⟨t, none⟩, ⟨t, none⟩])

/-- The body of the Fisher–Yates loop of game.ts `shuffleDeck`, for
`i = n, n-1, ..., 1`.  `Math.floor(random() * (i + 1))` is exactly
`u * (i+1) / 2^32` in natural division. -/
def shuffleSteps : Nat → GameState → GameState
  | 0, g => g
  | n + 1, g =>
      let (u, g1) := random g
      let j := (u * (n + 2)) / 4294967296
      shuffleSteps n { g1 with deck := listSwap g1.deck (n + 1) j }

/-- game.ts `shuffleDeck`: Fisher–Yates over `cache.deck` followed by a
`seed_changed` administrative event. -/
def shuffleDeck (g : GameState) : GameState :=
  let g1 := shuffleSteps (g.deck.length - 1) g
  recordEvent g1 (.info (.seed_changed g1.seed))

/-- game.ts `deckTopCard`: pop the front of the draw pile, recycling (and
shuffling) the discard pile into the draw pile first when the draw pile is
empty; fails with `DeckPileExhausted` when both are empty. -/
def deckTopCard (g : GameState) : Res Card :=
  match g.deck with
  | c :: rest => .ok c { g with deck := rest }
  | [] =>
    match g.pile with
    | [] => .err .DeckPileExhausted g
    | p :: ps =>
      let g1 := shuffleDeck { g with deck := p :: ps }
      let g2 := recordEvent { g1 with pile := [] } (.info .pile_to_deck)
      match g2.deck with
      | c :: rest => .ok c { g2 with deck := rest }
      | [] => .err .Unreachable g2

/-- `Array(n).fill(null).map(() => this.deckTopCard())`: `n` sequential draws,
first card first. -/
def drawN : Nat → GameState → Res (List Card)
  | 0, g => .ok [] g
  | n + 1, g =>
    match deckTopCard g with
    | .err e s => .err e s
    | .ok c s =>
      match drawN n s with
      | .err e s2 => .err e s2
      | .ok cs s2 => .ok (c :: cs) s2

-- ─── Seed derivation and construction ────────────────────────────────────────

/-- UTF-16 code units of a string, as produced by `charCodeAt` (characters
beyond the basic multilingual plane contribute a surrogate pair). -/
def utf16CodeUnits (s : String) : List Nat :=
  s.data.flatMap fun c =>
    let n := c.toNat
    if n < 65536 then [n]
    else [55296 + (n - 65536) / 1024, 56320 + (n - 65536) % 1024]

/-- One character step of utils.ts `cyrb128` (the four accumulators are
updated sequentially, so `h4` already sees the new `h1`). -/
def cyrb128Step : Nat × Nat × Nat × Nat → Nat → Nat × Nat × Nat × Nat
  | (h1, h2, h3, h4), k =>
    let h1n := h2 ^^^ imul (h1 ^^^ k) 597399067
    let h2n := h3 ^^^ imul (h2 ^^^ k) 2869860233
    let h3n := h4 ^^^ imul (h3 ^^^ k) 951274213
    let h4n := h1n ^^^ imul (h4 ^^^ k) 2716044179
    (h1n, h2n, h3n, h4n)

/-- utils.ts `cyrb128`, restricted to its returned 32-bit hash. -/
def cyrb128 (s : String) : Nat :=
  let (h1, h2, h3, h4) :=
    (utf16CodeUnits s).foldl cyrb128Step (1779033703, 3144134277, 1013904242, 2773480762)
  let h1f := imul (h3 ^^^ (h1 >>> 18)) 597399067
  let h2f := imul (h4 ^^^ (h2 >>> 22)) 2869860233
  let h3f := imul (h1f ^^^ (h3 >>> 17)) 951274213
  let h4f := imul (h2f ^^^ (h4 >>> 19)) 2716044179
  h1f ^^^ h2f ^^^ h3f ^^^ h4f

/-- A value passed as the `initialSeed` constructor prop. -/
inductive SeedArg where
  | str (s : String)
  | num (n : Int)
deriving DecidableEq, Repr

/-- The customisation props of the `Game` constructor. -/
structure GameConfig where
  shorthandMode : Bool := false
  stackPlusTwos : Bool := true
  initialSeed : Option SeedArg := none
  noInit : Bool := false
deriving DecidableEq, Repr

/-- Whether `props.initialSeed` is truthy: the constructor tests
`if (props.initialSeed)`, so the number `0` and the empty string are treated
exactly like an absent seed. -/
def seedTruthy : Option SeedArg → Bool
  | some (.str s) => !(s = "")
  | some (.num n) => !(n = 0)
  | none => false

/-- The integer seed the constructor settles on.  `entropy` models the single
`crypto.getRandomValues` draw used when the prop is absent or falsy. -/
def resolveSeed (s? : Option SeedArg) (entropy : Nat) : Int :=
  match s? with
  | some (.str s) => if s = "" then entropy else cyrb128 s
  | some (.num n) => if n = 0 then entropy else n
  | none => entropy

/-- The `commonState` record assembled by the constructor before `init`. -/
def freshState (cfg : GameConfig) (entropy : Nat) : GameState :=
  let seed := resolveSeed cfg.initialSeed entropy
  { shorthandMode := cfg.shorthandMode
    index := 0
    initialSeed := seed
    players := []
    stackPlusTwos := cfg.stackPlusTwos
    hands := []
    deck := []
    seed := seed
    stackedPlusTwos := 0
    turnStep := 1
    ended := false
    pile := []
    last3CardPlayOrColorChanges := []
    events := [] }

/-- game.ts `init`: install the freshly built 108-card deck, shuffle it, take
the first non-color-switching card out of the deck as the opening discard
(attributed to the engine), and reset `events`, `pile` and the color history
to it.  The `events` array is assigned, so the `seed_changed` event recorded
by the shuffle is discarded.  `findIndex` cannot miss on a standard deck; the
JavaScript fallback (`splice(-1, 1)`, removing the last card) is modeled
faithfully, and the empty-deck corner (where the source would record an
`undefined` card) is modeled by leaving the log empty. -/
def init (g0 : GameState) (customDeckTopCard : Option Card) : GameState :=
  let g1 := shuffleDeck { g0 with deck := DECK }
  let pick : Option Card × GameState :=
    match customDeckTopCard with
    | some c => (some c, g1)
    | none =>
      let i := g1.deck.findIdx (fun c => !(isColorSwitching c.type))
      match g1.deck[i]? with
      | some c => (some c, { g1 with deck := g1.deck.eraseIdx i })
      | none => (g1.deck.getLast?, { g1 with deck := g1.deck.dropLast })
  match pick with
  | (some ptc, g2) =>
      { g2 with events := [.game (.card_played ENGINE_ID ptc)]
                pile := [ptc]
                last3CardPlayOrColorChanges := [.inl ptc] }
  | (none, g2) =>
      { g2 with events := [], pile := [], last3CardPlayOrColorChanges := [] }

/-- The `Game` constructor on customisation props (the deserialising
constructor is `deserialise` below).  `entropy` is consumed only when the seed
prop is absent or falsy. -/
def mkGame (cfg : GameConfig) (entropy : Nat) : GameState :=
  let g := freshState cfg entropy
  if cfg.noInit then g else init g none

-- ─── State queries ───────────────────────────────────────────────────────────

/-- game.ts `nonInfoEvents`: the domain moves of the log, in order. -/
def nonInfoEvents (g : GameState) : List GameEvent :=
  g.events.filterMap fun e =>
    match e with
    | .game e2 => some e2
    | .info _ => none

/-- game.ts `lastTwoNonInfoEvents(ignoredEvents?)`:
`nonInfoEvents().slice(-2 + (ignoredEvents ?? 0), ignoredEvents).reverse()` —
index 0 of the result is the most recent considered domain move, index 1 the
one before it. -/
def lastTwoNonInfoEvents (g : GameState) (ignoredEvents : Option Int) : List GameEvent :=
  (jsSlice (nonInfoEvents g) (-2 + (ignoredEvents.getD 0)) ignoredEvents).reverse

/-- game.ts `activePlayer`: entry `|index % n|` of the key list of `hands`
(every entry of `hands` participates — an array value is always truthy).  With
no hands, `index % 0` is `NaN` in JavaScript and the lookup yields `undefined`,
modeled as `none`.  `Math.abs(index % n)` for the truncating JavaScript `%`
equals `|index| % n`. -/
def activePlayer (g : GameState) : Option PlayerId :=
  let validPlayers := g.hands.map (·.1)
  match validPlayers.length with
  | 0 => none
  | n + 1 => validPlayers[g.index.natAbs % (n + 1)]?

/-- game.ts `hasEnded`: once `cache.ended` is set, the loser is the first
entry of `hands` that still holds cards.  (The source asserts that such an
entry exists; when it would not, the source crashes — that corner is modeled
as `none`, i.e. not ended, and is unreachable through the engine.) -/
def hasEnded (g : GameState) : Option PlayerId :=
  if g.ended then
    match g.hands.find? (fun pr => !pr.2.isEmpty) with
    | some pr => some pr.1
    | none => none
  else none

/-- game.ts `expectedCard(bluffSiteCheck)`: the expected rank is the rank of
the top pile card unless that is color-switching; the expected color comes
from `last3CardPlayOrColorChanges.at(-1)` (`at(-3)` from a bluff site), either
the color of the recorded card or the explicitly chosen color. -/
def expectedCard (g : GameState) (bluffSiteCheck : Bool) :
    Option CardType × Option CardColor :=
  let expectedType : Option CardType :=
    match g.pile.getLast? with
    | some c => if isColorSwitching c.type then none else some c.type
    | none => none
  let expectedColor : Option CardColor :=
    match jsAt g.last3CardPlayOrColorChanges (if bluffSiteCheck then -3 else -1) with
    | some (Sum.inl c) => c.color
    | some (Sum.inr col) => some col
    | none => none
  (expectedType, expectedColor)

-- ─── The rule validator (game.ts `checkEvent`) ───────────────────────────────

/-- Rule 4 of `checkEvent`: the most recent considered domain move played a
color-switching card and the proposed move is not `choose-color`. -/
def pendingColorChoice (lastE : Option GameEvent) (e : GameEvent) : Bool :=
  match lastE with
  | some (.card_played _ c) =>
      isColorSwitching c.type &&
        (match e with
         | .chooseColor _ _ => false
         | _ => true)
  | _ => false

/-- Rule 5 of `checkEvent`: the most recent considered domain move played a
draw-two and the proposed move is neither a draw nor another draw-two play. -/
def pendingPlusTwo (lastE : Option GameEvent) (e : GameEvent) : Bool :=
  match lastE with
  | some (.card_played _ c) =>
      c.type = CardType.plusTwo &&
        (match e with
         | .draw _ => false
         | .card_played _ c2 => !(c2.type = CardType.plusTwo)
         | _ => true)
  | _ => false

/-- Rule 6 of `checkEvent`: the second-most-recent considered domain move
played a wild-draw-four and the proposed move is neither a draw nor a bluff
call. -/
def pendingPlusFour (secondE : Option GameEvent) (e : GameEvent) : Bool :=
  match secondE with
  | some (.card_played _ c) =>
      c.type = CardType.plusFour &&
        (match e with
         | .draw _ => false
         | .bluff_called _ => false
         | _ => true)
  | _ => false

/-- The expected-card comparison of the `card_played` branch of `checkEvent`:
reject when `expectedType != card.type && (card.color ?? expectedColor) !=
expectedColor`.  An absent `expectedType` compares unequal to every rank; a
card without a color coalesces to `expectedColor` and therefore always passes
the color comparison. -/
def expectedCardCheck (g : GameState) (bluffSiteCheck : Bool) (card : Card) :
    Option UErr :=
  let (expectedType, expectedColor) := expectedCard g bluffSiteCheck
  if expectedType ≠ some card.type ∧
      (match card.color with
       | some c => some c
       | none => expectedColor) ≠ expectedColor then
    some (.MustPlayExpectedCard expectedType expectedColor card)
  else none

/-- game.ts `checkEvent(event, bluffSiteCheck)`.  The method returns the
rejection (`.ok (some e)`) or `undefined` (`.ok none`); it can itself throw
only through `handOf` in the last-card check (`.error`), which the `&&`
short-circuit reaches only for a color-switching card. -/
def checkEvent (g : GameState) (event : GameEvent) (bluffSiteCheck : Bool) :
    Except UErr (Option UErr) :=
  if bluffSiteCheck = false ∧ g.players.length < MIN_PLAYERS then
    .ok (some (.TooFewPlayers g.players.length))
  else if bluffSiteCheck = false ∧ some (eventBy event) ≠ activePlayer g then
    .ok (some (.NotPlayersTurn (eventBy event)))
  else
    match hasEnded g with
    | some loser => .ok (some (.GameEnded loser))
    | none =>
      let l2 := lastTwoNonInfoEvents g (if bluffSiteCheck then some (-3) else none)
      let lastE := l2[0]?
      let secondE := l2[1]?
      if pendingColorChoice lastE event then .ok (some (.MustPickColor event))
      else if pendingPlusTwo lastE event then .ok (some (.MustDrawOrPlusTwo event))
      else if pendingPlusFour secondE event then .ok (some (.MustDrawOrCallBluff event))
      else
        match event with
        | .card_played by_ card =>
          if isColorSwitching card.type then
            match lookupHand g.hands by_ with
            | none => .error (.PlayerNotInGame by_)
            | some hand =>
              if hand.length = 1 then
                .ok (some (.MustNotPlayLastCardColorChanging event))
              else .ok (expectedCardCheck g bluffSiteCheck card)
          else .ok (expectedCardCheck g bluffSiteCheck card)
        | .draw by_ =>
          (match lastE with
           | some (.draw p) => if p = by_ then .ok (some .MustNotDrawTwice) else .ok none
           | _ => .ok none)
        | .pass by_ =>
          (match lastE with
           | some (.draw p) => if p = by_ then .ok none else .ok (some .MustNotPassWithoutDraw)
           | _ => .ok (some .MustNotPassWithoutDraw))
        | .bluff_called _ =>
          (match ((lastTwoNonInfoEvents g none)[1]? : Option GameEvent) with
           | some (.card_played _ c) =>
               if c.type = CardType.plusFour then .ok none else .ok (some .CannotCallBluff)
           | _ => .ok (some .CannotCallBluff))
        | .chooseColor by_ _ =>
          (match lastE with
           | some (.card_played p c) =>
               if isColorSwitching c.type ∧ by_ = p then .ok none
               else .ok (some .CannotSwitchColors)
           | _ => .ok (some .CannotSwitchColors))

-- ─── The move applier (game.ts `processNewEvent`) ────────────────────────────

/-- The bounded push onto `cache.last3CardPlayOrColorChanges`: shift when the
list already holds three entries, then push. -/
def push3 (l : List (Card ⊕ CardColor)) (x : Card ⊕ CardColor) :
    List (Card ⊕ CardColor) :=
  (if l.length = 3 then l.drop 1 else l) ++ [x]

/-- The `card_played` branch of `processNewEvent`, after validation (`hand` is
the array `handOf(event.by)` returned before validation).  The branch only
returns in the two win cases; a normal play falls through every `else if` of
the method and reaches the final `throw "unreachable"` with the move fully
applied. -/
def applyCardPlayed (g0 : GameState) (by_ : PlayerId) (card : Card)
    (hand : List Card) : Res ProcessResult :=
  match hand.findIdx? (fun c => c = card) with
  | none => .err (.PlayerDoesntHaveCard by_ card) g0
  | some i =>
    let g1 := { g0 with hands := setHand g0.hands by_ (hand.eraseIdx i) }
    let g2 := recordEvent g1 (.game (.card_played by_ card))
    let g3 := { g2 with
      last3CardPlayOrColorChanges := push3 g2.last3CardPlayOrColorChanges (.inl card)
      pile := g2.pile ++ [card] }
    let g4 := if card.type = CardType.plusTwo
      then { g3 with stackedPlusTwos := g3.stackedPlusTwos + 1 } else g3
    let g5 := if card.type = CardType.reverse
      then { g4 with turnStep := g4.turnStep * (-1) } else g4
    let g6 :=
      if isColorSwitching card.type then g5
      else
        let mult : Int :=
          if card.type = CardType.skip then 2
          else if card.type = CardType.reverse then
            (if g5.players.length = 2 then 2 else 1)
          else 1
        { g5 with index := g5.index + g5.turnStep * mult }
    match lookupHand g6.hands by_ with
    | some [] =>
      let g7 := recordEvent g6 (.info (.player_won by_))
      let playersWithCards := (g7.hands.filter (fun pr => !pr.2.isEmpty)).map (·.1)
      match playersWithCards with
      | [loser] =>
        let g8 := recordEvent g7 (.info (.game_ended loser))
        .ok (.player_win_game_end by_ loser) { g8 with ended := true }
      | _ => .ok (.player_win by_) g7
    | _ => .err .Unreachable g6

/-- Whether an optional event is a play of the given rank. -/
def isPlayOf (t : CardType) : Option GameEvent → Bool
  | some (.card_played _ c) => c.type = t
  | _ => false

/-- The `toDraw` computation of the `draw` branch of `processNewEvent`. -/
def drawCountOf (g : GameState) : Nat :=
  let l2 := lastTwoNonInfoEvents g none
  if isPlayOf .plusTwo l2[0]? then
    (if g.stackPlusTwos then g.stackedPlusTwos else 1) * 2
  else if isPlayOf .plusFour l2[1]? then 4
  else 1

/-- The `draw` branch of `processNewEvent`: draw `toDraw` cards, push them to
the hand, forfeit the turn when `toDraw ≠ 1`, record the event and reset the
draw-two stack. -/
def applyDraw (g0 : GameState) (by_ : PlayerId) : Res ProcessResult :=
  let toDraw := drawCountOf g0
  match drawN toDraw g0 with
  | .err e s => .err e s
  | .ok cards g1 =>
    match lookupHand g1.hands by_ with
    | none => .err (.PlayerNotInGame by_) g1
    | some h =>
      let g2 := { g1 with hands := setHand g1.hands by_ (h ++ cards) }
      let g3 := if toDraw ≠ 1 then { g2 with index := g2.index + g2.turnStep } else g2
      let g4 := recordEvent g3 (.game (.draw by_))
      .ok (.drawing_cards cards) { g4 with stackedPlusTwos := 0 }

/-- The `pass` branch of `processNewEvent`. -/
def applyPass (g0 : GameState) (by_ : PlayerId) : Res ProcessResult :=
  let g1 := recordEvent g0 (.game (.pass by_))
  .ok .turn_passed { g1 with index := g1.index + g1.turnStep }

/-- The state from which the bluff probe is evaluated: the `bluff_called`
event has been recorded and the turn advanced. -/
def bluffMid (g : GameState) (by_ : PlayerId) : GameState :=
  let g1 := recordEvent g (.game (.bluff_called by_))
  { g1 with index := g1.index + g1.turnStep }

/-- One bluff probe: `!this.checkEvent({card_played, card, by: ENGINE}, true)`.
Probed cards are non-color-switching, so the probe cannot reach the one throw
site of `checkEvent`; a rejection of any kind counts as false. -/
def probeOk (g : GameState) (c : Card) : Bool :=
  match checkEvent g (.card_played ENGINE_ID c) true with
  | .ok none => true
  | _ => false

/-- The `bluff_called` branch of `processNewEvent`: the accused is the author
of the second-most-recent domain move (guaranteed by validation to be a
wild-draw-four play); the probe runs over every non-color-switching card of
the accused hand; 4 cards go to the accused on success, 6 to the accuser on
failure, and the corresponding administrative event is recorded. -/
def applyBluff (g0 : GameState) (by_ : PlayerId) : Res ProcessResult :=
  match ((lastTwoNonInfoEvents g0 none)[1]? : Option GameEvent) with
  | none => .err .Unreachable g0
  | some sl =>
    let lastPlayerId := eventBy sl
    match lookupHand g0.hands lastPlayerId with
    | none => .err (.PlayerNotInGame lastPlayerId) g0
    | some lastPlayerHand =>
      let g1 := bluffMid g0 by_
      if (lastPlayerHand.filter (fun c => !(isColorSwitching c.type))).any
          (fun c => probeOk g1 c) then
        match drawN 4 g1 with
        | .err e s => .err e s
        | .ok cards g2 =>
          let g3 := { g2 with hands := setHand g2.hands lastPlayerId (lastPlayerHand ++ cards) }
          .ok (.bluff_call_succeeded by_ lastPlayerId)
            (recordEvent g3 (.info (.bluff_call_succeeded by_ lastPlayerId)))
      else
        match drawN 6 g1 with
        | .err e s => .err e s
        | .ok cards g2 =>
          match lookupHand g2.hands by_ with
          | none => .err (.PlayerNotInGame by_) g2
          | some byHand =>
            let g3 := { g2 with hands := setHand g2.hands by_ (byHand ++ cards) }
            .ok (.bluff_call_failed by_ lastPlayerId)
              (recordEvent g3 (.info (.bluff_call_failed by_ lastPlayerId)))

/-- The `choose-color` branch of `processNewEvent`. -/
def applyChooseColor (g0 : GameState) (by_ : PlayerId) (color : CardColor) :
    Res ProcessResult :=
  let g1 := { g0 with
    last3CardPlayOrColorChanges := push3 g0.last3CardPlayOrColorChanges (.inr color) }
  let g2 := recordEvent g1 (.game (.chooseColor by_ color))
  .ok (.color_changed color) { g2 with index := g2.index + g2.turnStep }

/-- game.ts `processNewEvent`.  The id check `playerId.safeParse(event.by)` is
`z.string()` and accepts every string, so it never fires; `handOf(event.by)`
is fetched (and can throw) before validation; then `checkEvent` either throws
(its own `handOf`) or its returned rejection is thrown. -/
def processNewEvent (g : GameState) (event : GameEvent) : Res ProcessResult :=
  match lookupHand g.hands (eventBy event) with
  | none => .err (.PlayerNotInGame (eventBy event)) g
  | some hand =>
    match checkEvent g event false with
    | .error e => .err e g
    | .ok (some e) => .err e g
    | .ok none =>
      match event with
      | .card_played by_ card => applyCardPlayed g by_ card hand
      | .draw by_ => applyDraw g by_
      | .pass by_ => applyPass g by_
      | .bluff_called by_ => applyBluff g by_
      | .chooseColor by_ color => applyChooseColor g by_ color

-- ─── Join and leave ──────────────────────────────────────────────────────────

/-- The per-player loop of `join`: deal a 7-card hand, push the player,
install the hand, record the administrative event. -/
def joinAll : GameState → List PlayerId → Res Unit
  | g, [] => .ok () g
  | g, p :: rest =>
    match drawN 7 g with
    | .err e s => .err e s
    | .ok hand g1 =>
      let g2 := { g1 with players := g1.players ++ [p], hands := setHand g1.hands p hand }
      joinAll (recordEvent g2 (.info (.player_joined p))) rest

/-- game.ts `join(...playerIds)`: rejected only when the player count at entry
is exactly `MAX_PLAYERS`; every id is then validated (`playerId.safeParse` is
`z.string()` and always succeeds, so only the reserved `ENGINE_ID` can be
rejected) before any hand is dealt. -/
def join (g : GameState) (playerIds : List PlayerId) : Res Unit :=
  if g.players.length = MAX_PLAYERS then
    .err (.TooManyPlayers g.players.length) g
  else
    match playerIds.find? (fun id => id = ENGINE_ID) with
    | some bad => .err (.InvalidId bad) g
    | none => joinAll g playerIds

/-- game.ts `leave(...playerIds)`: per id, throw `PlayerNotInGame` when the id
is not in the `players` array, otherwise filter it out of `players` and record
the administrative event.  The `hands` entry of the leaving player is NOT
removed. -/
def leave : GameState → List PlayerId → Res Unit
  | g, [] => .ok () g
  | g, p :: rest =>
    if g.players.contains p then
      let g1 := { g with players := g.players.filter (fun q => !(q = p)) }
      leave (recordEvent g1 (.info (.player_left p))) rest
    else .err (.PlayerNotInGame p) g

-- ─── validEvents ─────────────────────────────────────────────────────────────

/-- game.ts `validEvents(playerId)`: one candidate of every move kind (red as
the placeholder color) plus one play per card in hand, filtered by
`checkEvent`.  The initial `handOf` can throw; inside the filter `checkEvent`
cannot (the probed plays are by a player that is present in `hands`). -/
def validEvents (g : GameState) (p : PlayerId) : Res (List GameEvent) :=
  match lookupHand g.hands p with
  | none => .err (.PlayerNotInGame p) g
  | some hand =>
    let allEvents : List GameEvent :=
      [.draw p, .bluff_called p, .pass p, .chooseColor p .red]
      ++ hand.map (fun card => .card_played p card)
    .ok (allEvents.filter (fun e =>
      match checkEvent g e false with
      | .ok none => true
      | _ => false)) g

/-- The stateful wrapping of `checkEvent` as invoked on an engine: the method
reads the state (possibly throwing) and never writes it. -/
def checkEventRun (g : GameState) (event : GameEvent) (bluffSiteCheck : Bool) :
    Res (Option UErr) :=
  match checkEvent g event bluffSiteCheck with
  | .ok v => .ok v g
  | .error e => .err e g

-- ─── Serialisation ───────────────────────────────────────────────────────────

/-- game.ts `serialise`: `JSON.stringify(this._state)`.  The state is plain
data (strings, integers, booleans, arrays, objects), on which the JSON
round-trip is the identity, so the snapshot is modeled as the state value
itself. -/
def serialise (g : GameState) : GameState := g

/-- The shape constraint of the types.ts zod schema `card`: colored ranks
carry a color, color-switching ranks carry none. -/
def validCard (c : Card) : Bool :=
  if isColorSwitching c.type then c.color = none else !(c.color = none)

/-- The constraints of the types.ts zod schema `gameState` that the Lean
representation does not already enforce structurally: `turnStep` is the
literal union `1 | -1`, every card in the state is shape-valid, shorthand
logs contain only domain moves (`gameEvent.array()`), and — as for every
JavaScript object — the keys of `hands` are distinct. -/
def zodValidState (g : GameState) : Bool :=
  (g.turnStep = 1 || g.turnStep = -1)
  && g.hands.all (fun pr => pr.2.all validCard)
  && decide ((g.hands.map (·.1)).Nodup)
  && g.deck.all validCard
  && g.pile.all validCard
  && g.last3CardPlayOrColorChanges.all (fun x =>
       match x with
       | Sum.inl c => validCard c
       | Sum.inr _ => true)
  && g.events.all (fun e =>
       match e with
       | .game (.card_played _ c) => validCard c
       | .game _ => true
       | .info _ => !g.shorthandMode)

/-- The deserialising branch of the constructor:
`JSON.parse` + `gameState.parse(state)` + `this._state = state`. -/
def deserialise (snapshot : GameState) : Except UErr GameState :=
  if zodValidState snapshot then .ok snapshot else .error .ZodParseFailed

-- ─── jumpToEventIndex ────────────────────────────────────────────────────────

/-- The replay loop of `jumpToEventIndex`: `player_joined`/`player_left`
administrative events are replayed through `join`/`leave`, a `game_ended`
event stops the replay, other administrative events are skipped, engine-
authored domain events are skipped, and every other domain event goes through
`processNewEvent`.  A throw anywhere propagates. -/
def replayEvents : GameState → List LogEvent → Res Unit
  | g, [] => .ok () g
  | g, .info i :: rest =>
    match i with
    | .game_ended _ => .ok () g
    | .player_joined id =>
      (match join g [id] with
       | .err e s => .err e s
       | .ok _ s => replayEvents s rest)
    | .player_left id =>
      (match leave g [id] with
       | .err e s => .err e s
       | .ok _ s => replayEvents s rest)
    | _ => replayEvents g rest
  | g, .game e :: rest =>
    if eventBy e = ENGINE_ID then replayEvents g rest
    else
      match processNewEvent g e with
      | .err er s => .err er s
      | .ok _ s => replayEvents s rest

/-- game.ts `jumpToEventIndex(index)`: full mode only; the log is truncated
after the (normalised) index and the removed tail returned; the new state is
produced by replaying the retained log on a fresh engine constructed from
`{ initialSeed: this._state.initialSeed }` alone (all other construction
options take their defaults).  A throw during replay propagates while `this`
keeps the truncated log.  `entropy` is consumed only in the corner where the
stored `initialSeed` is the falsy number 0. -/
def jumpToEventIndex (entropy : Nat) (g : GameState) (index : Int) :
    Res (List LogEvent) :=
  if g.shorthandMode then .err .NotFullMode g
  else
    let len := g.events.length
    if index < -(len : Int) ∨ (len : Int) ≤ index then .err .InvalidEventIndex g
    else
      let idx : Nat := (if index < 0 then (len : Int) + index else index).toNat
      let remaining := g.events.drop (idx + 1)
      let g1 := { g with events := g.events.take (idx + 1) }
      let cg0 := mkGame { initialSeed := some (.num g.initialSeed) } entropy
      match replayEvents cg0 g1.events with
      | .err e _ => .err e g1
      | .ok _ cgFinal => .ok remaining cgFinal

-- ─── Call sequences (for the determinism claims) ─────────────────────────────

/-- Perform a sequence of `join` calls, keeping the engine state whether each
call returns or throws. -/
def runJoins (g : GameState) : List (List PlayerId) → GameState
  | [] => g
  | ids :: rest => runJoins (resState (join g ids)) rest

/-- Perform a sequence of moves through `processNewEvent`, keeping the engine
state whether each call returns or throws. -/
def runMoves (g : GameState) : List GameEvent → GameState
  | [] => g
  | e :: rest => runMoves (resState (processNewEvent g e)) rest

-- ─── Spec-side definitions (phrased from the claims, for comparison) ─────────

/-- The draw count as the specification words it: twice the stacked draw-two
count if the preceding domain move played a draw-two and stacking is enabled;
exactly 2 if it played a draw-two and stacking is disabled; 4 if the domain
move two back played a wild-draw-four; 1 otherwise. -/
def claimDrawCount (g : GameState) : Nat :=
  let l2 := lastTwoNonInfoEvents g none
  if isPlayOf .plusTwo l2[0]? then
    (if g.stackPlusTwos then 2 * g.stackedPlusTwos else 2)
  else if isPlayOf .plusFour l2[1]? then 4
  else 1

/-- Rank axis of the expected-card comparison as the code enforces it: the
axis is satisfied exactly when an expected rank is present and equals the
rank of the card (an absent expected rank satisfies no card). -/
def rankAxisSatisfied (expT : Option CardType) (c : Card) : Bool :=
  expT = some c.type

/-- Color axis of the expected-card comparison as the code enforces it: the
axis is satisfied exactly when the card carries no color, or the expected
color is present and equals the color of the card. -/
def colorAxisSatisfied (expC : Option CardColor) (c : Card) : Bool :=
  c.color = none || c.color = expC

/-- The rejection condition of claim C6 read literally: the card matches
neither the expected rank nor the expected color, where an ABSENT expectation
of either kind is a wildcard that places no constraint on that axis (so the
card vacuously matches it). -/
def claimWildcardRejects (expT : Option CardType) (expC : Option CardColor)
    (c : Card) : Bool :=
  !(expT.isNone || expT = some c.type) && !(expC.isNone || c.color = expC)

/-- The bluff condition as claim C4 words it: some non-color-switching card of
the accused current hand would have been a legal play under the bluff-site
check (evaluated, as the code does, from the state in which the bluff call has
been recorded and the turn advanced). -/
def claimBluffCondition (g : GameState) (by_ : PlayerId)
    (accusedHand : List Card) : Prop :=
  ∃ c ∈ accusedHand, isColorSwitching c.type = false ∧
    checkEvent (bluffMid g by_) (.card_played ENGINE_ID c) true = .ok none

instance : DecidableEq (Except UErr (Option UErr)) := fun a b =>
  match a, b with
  | .ok x, .ok y => if h : x = y then isTrue (by rw [h]) else isFalse (by simp [h])
  | .error x, .error y => if h : x = y then isTrue (by rw [h]) else isFalse (by simp [h])
  | .ok _, .error _ => isFalse (by simp)
  | .error _, .ok _ => isFalse (by simp)

instance (g : GameState) (by_ : PlayerId) (h : List Card) :
    Decidable (claimBluffCondition g by_ h) := by
  unfold claimBluffCondition; infer_instance

-- ─── Concrete fixtures for witnesses and counterexamples ─────────────────────

/-- The opening discard used by the hand-crafted fixture states. -/
def nineRed : Card := ⟨.nine, some .red⟩

/-- A small mid-game state: two players, `a` to move, the engine opening play
`nineRed` on the pile, two cards left in the draw pile. -/
def c5State : GameState :=
  { shorthandMode := false
    index := 0
    initialSeed := 1
    players := ["a", "b"]
    stackPlusTwos := true
    hands := [("a", [⟨.one, some .blue⟩]), ("b", [⟨.two, some .blue⟩])]
    deck := [⟨.three, some .green⟩, ⟨.four, some .green⟩]
    seed := 1
    stackedPlusTwos := 0
    turnStep := 1
    ended := false
    pile := [nineRed]
    last3CardPlayOrColorChanges := [.inl nineRed]
    events := [.game (.card_played ENGINE_ID nineRed)] }

/-- A state in which `CallBluff` by `a` is valid: `b` played a wild-draw-four
on the engine opening `nineRed` and chose blue; `b` still holds a red seven
(legal at the bluff site, whose expected color is red), so the bluff call must
succeed. -/
def c4State : GameState :=
  { shorthandMode := false
    index := 0
    initialSeed := 1
    players := ["a", "b"]
    stackPlusTwos := true
    hands := [("a", [⟨.one, some .green⟩, ⟨.two, some .green⟩]),
              ("b", [⟨.seven, some .red⟩, ⟨.three, some .blue⟩])]
    deck := [⟨.five, some .green⟩, ⟨.six, some .green⟩, ⟨.seven, some .green⟩,
             ⟨.eight, some .green⟩, ⟨.five, some .yellow⟩, ⟨.six, some .yellow⟩,
             ⟨.seven, some .yellow⟩, ⟨.eight, some .yellow⟩]
    seed := 1
    stackedPlusTwos := 0
    turnStep := 1
    ended := false
    pile := [nineRed, ⟨.plusFour, none⟩]
    last3CardPlayOrColorChanges := [.inl nineRed, .inl ⟨.plusFour, none⟩, .inr .blue]
    events := [.game (.card_played ENGINE_ID nineRed),
               .game (.card_played "b" ⟨.plusFour, none⟩),
               .game (.chooseColor "b" .blue)] }

/-- A state with a valid, non-winning play available to `a` (the red one on
the red nine). -/
def c7State : GameState :=
  { shorthandMode := false
    index := 0
    initialSeed := 1
    players := ["a", "b"]
    stackPlusTwos := true
    hands := [("a", [⟨.one, some .red⟩, ⟨.two, some .blue⟩]), ("b", [⟨.two, some .green⟩])]
    deck := [⟨.five, some .green⟩]
    seed := 1
    stackedPlusTwos := 0
    turnStep := 1
    ended := false
    pile := [nineRed]
    last3CardPlayOrColorChanges := [.inl nineRed]
    events := [.game (.card_played ENGINE_ID nineRed)] }

/-- A state with ten joined players (the configured ceiling). -/
def c8StateTen : GameState :=
  { shorthandMode := false
    index := 0
    initialSeed := 1
    players := ["p0", "p1", "p2", "p3", "p4", "p5", "p6", "p7", "p8", "p9"]
    stackPlusTwos := true
    hands := []
    deck := []
    seed := 1
    stackedPlusTwos := 0
    turnStep := 1
    ended := false
    pile := []
    last3CardPlayOrColorChanges := []
    events := [] }

/-- A real game: fresh engine with seed 42. -/
def c3g0 : GameState := mkGame { initialSeed := some (.num 42) } 0

/-- The seed-42 game after `join("a", "b")`. -/
def c3g2 : GameState := resState (join c3g0 ["a", "b"])

/-- A card that the seed-42 deal puts in the hand of `a` and that is legal on
the opening discard (the red nine): the red reverse. -/
def c3play : GameEvent := .card_played "a" ⟨.reverse, some .red⟩

/-- The seed-42 game after `a` plays the red reverse (the call throws
`"unreachable"` but leaves the move fully applied). -/
def c3g3 : GameState := resState (processNewEvent c3g2 c3play)

/-- The fresh seed-5 engine. -/
def c8g0 : GameState := mkGame { initialSeed := some (.num 5) } 0

/-- One `join` call carrying eleven ids, entered with zero players. -/
def c8Joined : Res Unit :=
  join c8g0 ["p0", "p1", "p2", "p3", "p4", "p5", "p6", "p7", "p8", "p9", "p10"]

/-- The seed-42 two-player game after `leave("a")`. -/
def c9Left : Res Unit := leave c3g2 ["a"]

/-- A real game for C6: fresh engine with seed 1, after `join("a","b")`.  The
seed-1 deal gives `a` a wild (`colorChooser`) and `b` a green skip. -/
def c6g1 : GameState := resState (join (mkGame { initialSeed := some (.num 1) } 0) ["a", "b"])

/-- The seed-1 game after `a` plays the wild (applied despite the
`"unreachable"` throw, see C7). -/
def c6g2 : GameState :=
  resState (processNewEvent c6g1 (.card_played "a" ⟨.colorChooser, none⟩))

/-- The seed-1 game after `a` chooses blue: `b` is to move, the top discard is
the wild (so no rank is expected) and the expected color is blue. -/
def c6g3 : GameState := resState (processNewEvent c6g2 (.chooseColor "a" .blue))

-- ─── Reachability ────────────────────────────────────────────────────────────

/-- The invariant behind the zod snapshot schema, in propositional form (see
`zodValidState`): `turnStep` is 1 or -1, every card anywhere in the state is
shape-valid, the keys of `hands` are distinct, and shorthand logs hold only
domain moves. -/
def ValidState (g : GameState) : Prop :=
  (g.turnStep = 1 ∨ g.turnStep = -1)
  ∧ (∀ p h, (p, h) ∈ g.hands → ∀ c ∈ h, validCard c = true)
  ∧ (g.hands.map (·.1)).Nodup
  ∧ (∀ c ∈ g.deck, validCard c = true)
  ∧ (∀ c ∈ g.pile, validCard c = true)
  ∧ (∀ c, Sum.inl c ∈ g.last3CardPlayOrColorChanges → validCard c = true)
  ∧ (∀ p c, LogEvent.game (.card_played p c) ∈ g.events → validCard c = true)
  ∧ (g.shorthandMode = true → ∀ i, LogEvent.info i ∉ g.events)

/-- The states an engine can ever hold: those of a fresh construction, and
every state produced from a reachable one by a public call — whether the call
returned or threw (a throw leaves the mutations performed so far in place, so
the thrown-state is the state the engine goes on from). -/
inductive Reachable : GameState → Prop where
  | construct (cfg : GameConfig) (entropy : Nat) : Reachable (mkGame cfg entropy)
  | deser (g g' : GameState) : Reachable g →
      deserialise (serialise g) = .ok g' → Reachable g'
  | step (g : GameState) (e : GameEvent) : Reachable g →
      Reachable (resState (processNewEvent g e))
  | join_step (g : GameState) (ids : List PlayerId) : Reachable g →
      Reachable (resState (join g ids))
  | leave_step (g : GameState) (ids : List PlayerId) : Reachable g →
      Reachable (resState (leave g ids))
  | jump_step (g : GameState) (entropy : Nat) (i : Int) : Reachable g →
      Reachable (resState (jumpToEventIndex entropy g i))

-- ═══ Theorems ════════════════════════════════════════════════════════════════

-- ─── Frame lemmas ────────────────────────────────────────────────────────────

theorem recordEvent_hands (g : GameState) (e : LogEvent) :
    (recordEvent g e).hands = g.hands := by
  unfold recordEvent; split <;> (try split) <;> rfl

theorem recordEvent_index (g : GameState) (e : LogEvent) :
    (recordEvent g e).index = g.index := by
  unfold recordEvent; split <;> (try split) <;> rfl

theorem recordEvent_turnStep (g : GameState) (e : LogEvent) :
    (recordEvent g e).turnStep = g.turnStep := by
  unfold recordEvent; split <;> (try split) <;> rfl

theorem recordEvent_players (g : GameState) (e : LogEvent) :
    (recordEvent g e).players = g.players := by
  unfold recordEvent; split <;> (try split) <;> rfl

theorem recordEvent_stackedPlusTwos (g : GameState) (e : LogEvent) :
    (recordEvent g e).stackedPlusTwos = g.stackedPlusTwos := by
  unfold recordEvent; split <;> (try split) <;> rfl

theorem recordEvent_stackPlusTwos (g : GameState) (e : LogEvent) :
    (recordEvent g e).stackPlusTwos = g.stackPlusTwos := by
  unfold recordEvent; split <;> (try split) <;> rfl

theorem recordEvent_shorthandMode (g : GameState) (e : LogEvent) :
    (recordEvent g e).shorthandMode = g.shorthandMode := by
  unfold recordEvent; split <;> (try split) <;> rfl

theorem recordEvent_ended (g : GameState) (e : LogEvent) :
    (recordEvent g e).ended = g.ended := by
  unfold recordEvent; split <;> (try split) <;> rfl

theorem recordEvent_pile (g : GameState) (e : LogEvent) :
    (recordEvent g e).pile = g.pile := by
  unfold recordEvent; split <;> (try split) <;> rfl

theorem recordEvent_deck (g : GameState) (e : LogEvent) :
    (recordEvent g e).deck = g.deck := by
  unfold recordEvent; split <;> (try split) <;> rfl

theorem recordEvent_seed (g : GameState) (e : LogEvent) :
    (recordEvent g e).seed = g.seed := by
  unfold recordEvent; split <;> (try split) <;> rfl

theorem recordEvent_last3 (g : GameState) (e : LogEvent) :
    (recordEvent g e).last3CardPlayOrColorChanges = g.last3CardPlayOrColorChanges := by
  unfold recordEvent; split <;> (try split) <;> rfl

theorem recordEvent_full_events (g : GameState) (e : LogEvent)
    (h : g.shorthandMode = false) :
    (recordEvent g e).events = g.events ++ [e] := by
  unfold recordEvent; rw [h]; simp

theorem recordEvent_getLast (g : GameState) (e : LogEvent)
    (h : g.shorthandMode = false) :
    (recordEvent g e).events.getLast? = some e := by
  rw [recordEvent_full_events g e h]; simp

theorem shuffleSteps_frame (n : Nat) (g : GameState) :
    (shuffleSteps n g).hands = g.hands ∧ (shuffleSteps n g).index = g.index ∧
    (shuffleSteps n g).turnStep = g.turnStep ∧
    (shuffleSteps n g).players = g.players ∧
    (shuffleSteps n g).stackedPlusTwos = g.stackedPlusTwos ∧
    (shuffleSteps n g).stackPlusTwos = g.stackPlusTwos ∧
    (shuffleSteps n g).shorthandMode = g.shorthandMode ∧
    (shuffleSteps n g).ended = g.ended ∧
    (shuffleSteps n g).pile = g.pile ∧
    (shuffleSteps n g).last3CardPlayOrColorChanges = g.last3CardPlayOrColorChanges ∧
    (shuffleSteps n g).events = g.events := by
  induction n generalizing g with
  | zero => exact ⟨rfl, rfl, rfl, rfl, rfl, rfl, rfl, rfl, rfl, rfl, rfl⟩
  | succ n ih => simpa [shuffleSteps, random] using ih _

theorem shuffleDeck_frame (g : GameState) :
    (shuffleDeck g).hands = g.hands ∧ (shuffleDeck g).index = g.index ∧
    (shuffleDeck g).turnStep = g.turnStep ∧
    (shuffleDeck g).players = g.players ∧
    (shuffleDeck g).stackedPlusTwos = g.stackedPlusTwos ∧
    (shuffleDeck g).stackPlusTwos = g.stackPlusTwos ∧
    (shuffleDeck g).shorthandMode = g.shorthandMode ∧
    (shuffleDeck g).ended = g.ended ∧
    (shuffleDeck g).pile = g.pile ∧
    (shuffleDeck g).last3CardPlayOrColorChanges = g.last3CardPlayOrColorChanges := by
  unfold shuffleDeck
  have h := shuffleSteps_frame (g.deck.length - 1) g
  refine ⟨?_, ?_, ?_, ?_, ?_, ?_, ?_, ?_, ?_, ?_⟩ <;>
    simp only [recordEvent_hands, recordEvent_index, recordEvent_turnStep,
      recordEvent_players, recordEvent_stackedPlusTwos, recordEvent_stackPlusTwos,
      recordEvent_shorthandMode, recordEvent_ended, recordEvent_pile,
      recordEvent_last3] <;>
    first
      | exact h.1
      | exact h.2.1
      | exact h.2.2.1
      | exact h.2.2.2.1
      | exact h.2.2.2.2.1
      | exact h.2.2.2.2.2.1
      | exact h.2.2.2.2.2.2.1
      | exact h.2.2.2.2.2.2.2.1
      | exact h.2.2.2.2.2.2.2.2.1
      | exact h.2.2.2.2.2.2.2.2.2.1

/-- Drawing one card never touches the fields listed here (it mutates only the
deck, the pile, the seed and the event log). -/
theorem deckTopCard_frame {g g2 : GameState} {c : Card}
    (h : deckTopCard g = .ok c g2) :
    g2.hands = g.hands ∧ g2.index = g.index ∧ g2.turnStep = g.turnStep ∧
    g2.players = g.players ∧ g2.stackedPlusTwos = g.stackedPlusTwos ∧
    g2.stackPlusTwos = g.stackPlusTwos ∧ g2.shorthandMode = g.shorthandMode ∧
    g2.ended = g.ended ∧
    g2.last3CardPlayOrColorChanges = g.last3CardPlayOrColorChanges := by
  unfold deckTopCard at h
  split at h
  · cases h
    exact ⟨rfl, rfl, rfl, rfl, rfl, rfl, rfl, rfl, rfl⟩
  · rename_i hdeck
    split at h
    · cases h
    · rename_i p ps hpile
      dsimp only at h
      split at h
      · rename_i c2 rest hrest
        cases h
        have hs := shuffleDeck_frame { g with deck := p :: ps }
        constructor
        · simpa [recordEvent_hands] using hs.1
        constructor
        · simpa [recordEvent_index] using hs.2.1
        constructor
        · simpa [recordEvent_turnStep] using hs.2.2.1
        constructor
        · simpa [recordEvent_players] using hs.2.2.2.1
        constructor
        · simpa [recordEvent_stackedPlusTwos] using hs.2.2.2.2.1
        constructor
        · simpa [recordEvent_stackPlusTwos] using hs.2.2.2.2.2.1
        constructor
        · simpa [recordEvent_shorthandMode] using hs.2.2.2.2.2.2.1
        constructor
        · simpa [recordEvent_ended] using hs.2.2.2.2.2.2.2.1
        · simpa [recordEvent_last3] using hs.2.2.2.2.2.2.2.2.2
      · cases h

/-- A successful `n`-card draw returns exactly `n` cards and touches only the
deck, the pile, the seed and the event log. -/
theorem drawN_ok {n : Nat} {g g2 : GameState} {cs : List Card}
    (h : drawN n g = .ok cs g2) :
    cs.length = n ∧
    g2.hands = g.hands ∧ g2.index = g.index ∧ g2.turnStep = g.turnStep ∧
    g2.players = g.players ∧ g2.stackedPlusTwos = g.stackedPlusTwos ∧
    g2.stackPlusTwos = g.stackPlusTwos ∧ g2.shorthandMode = g.shorthandMode ∧
    g2.ended = g.ended ∧
    g2.last3CardPlayOrColorChanges = g.last3CardPlayOrColorChanges := by
  induction n generalizing g cs with
  | zero =>
    unfold drawN at h
    cases h
    exact ⟨rfl, rfl, rfl, rfl, rfl, rfl, rfl, rfl, rfl, rfl⟩
  | succ n ih =>
    unfold drawN at h
    split at h
    · cases h
    · rename_i c s hdt
      split at h
      · cases h
      · rename_i cs2 s2 hdn
        cases h
        obtain ⟨f1, f2, f3, f4, f5, f6, f7, f8, f9⟩ := deckTopCard_frame hdt
        obtain ⟨l1, l2, l3, l4, l5, l6, l7, l8, l9, l10⟩ := ih hdn
        refine ⟨by simp [l1], ?_, ?_, ?_, ?_, ?_, ?_, ?_, ?_, ?_⟩ <;>
          simp_all

/-- Writing a hand and reading it back. -/
theorem lookupHand_setHand (hs : List (PlayerId × List Card)) (p : PlayerId)
    (h : List Card) : lookupHand (setHand hs p h) p = some h := by
  induction hs with
  | nil => simp [setHand, lookupHand]
  | cons pr rest ih =>
    obtain ⟨q, h0⟩ := pr
    by_cases hq : q = p
    · simp [setHand, lookupHand, hq]
    · simp [setHand, lookupHand, hq, ih]

-- ─── C10: the validator is side-effect free ──────────────────────────────────

/-- C10: `checkEvent` is side-effect free — for every game state, candidate
event and value of the `bluffSiteCheck` flag, the state after the call (be it
a return of a rejection value or a throw) is the state before it, and the
same holds for `validEvents`, which filters by `checkEvent`.  In the
embedding the method is a pure function of the state (the source performs no
assignment to `_state` anywhere in `checkEvent`); this theorem records that
the engine-level wrapping returns the state unchanged in every case. -/
theorem checkEvent_stateless (g : GameState) (e : GameEvent) (b : Bool) :
    resState (checkEventRun g e b) = g ∧
    ∀ p : PlayerId, resState (validEvents g p) = g := by
  constructor
  · unfold checkEventRun
    split <;> rfl
  · intro p
    unfold validEvents
    split <;> rfl

-- ─── C1: determinism for a fixed seed ────────────────────────────────────────

/-- For a truthy seed prop the constructor never consults the entropy
source. -/
theorem resolveSeed_entropyFree {s? : Option SeedArg}
    (h : seedTruthy s? = true) (e1 e2 : Nat) :
    resolveSeed s? e1 = resolveSeed s? e2 := by
  match s? with
  | none => simp [seedTruthy] at h
  | some (.str s) =>
    simp [seedTruthy] at h
    simp [resolveSeed, h]
  | some (.num n) =>
    simp [seedTruthy] at h
    simp [resolveSeed, h]

/-- Engines constructed from the same truthy seed are equal, whatever the
entropy source would have produced. -/
theorem mkGame_entropyFree {cfg : GameConfig}
    (h : seedTruthy cfg.initialSeed = true) (e1 e2 : Nat) :
    mkGame cfg e1 = mkGame cfg e2 := by
  unfold mkGame freshState
  rw [resolveSeed_entropyFree h e1 e2]

/-- C1 (amended): for every seed whose value is truthy — every string except
the empty one, every number except 0 — two engines freshly constructed with
that seed, performing the identical sequence of `join` calls and then the
identical sequence of moves, are in equal states after every step (the move
lists range over all prefixes, so equality after every intermediate step is
an instance).  For the falsy seeds `0` and `""` the constructor falls back to
the entropy source and determinism fails (see the counterexample). -/
theorem determinism_same_seed (cfg : GameConfig) (e1 e2 : Nat)
    (h : seedTruthy cfg.initialSeed = true)
    (joins : List (List PlayerId)) (moves : List GameEvent) :
    runMoves (runJoins (mkGame cfg e1) joins) moves
      = runMoves (runJoins (mkGame cfg e2) joins) moves := by
  rw [mkGame_entropyFree h e1 e2]

/-- Witness for C1: a concrete truthy seed, with a join and a move
performed. -/
theorem determinism_same_seed_witness :
    seedTruthy (some (.num 7)) = true ∧
    runMoves (runJoins (mkGame { initialSeed := some (.num 7) } 1) [["a", "b"]])
        [.draw "a"]
      = runMoves (runJoins (mkGame { initialSeed := some (.num 7) } 2) [["a", "b"]])
        [.draw "a"] :=
  ⟨by decide,
   determinism_same_seed { initialSeed := some (.num 7) } 1 2 (by decide)
     [["a", "b"]] [.draw "a"]⟩

/-- Counterexample for C1 as stated: with `initialSeed = 0` (a number, hence a
seed the claim quantifies over) the constructor treats the seed as absent and
draws from the entropy source, so two freshly constructed engines that perform
the identical (empty) call sequences already differ. -/
theorem determinism_seed_zero_cex :
    runMoves (runJoins (mkGame { initialSeed := some (.num 0) } 1) []) []
      ≠ runMoves (runJoins (mkGame { initialSeed := some (.num 0) } 2) []) [] := by
  decide

-- ─── Schema validity of reachable states ─────────────────────────────────────

theorem lookupHand_mem {hs : List (PlayerId × List Card)} {p : PlayerId}
    {h : List Card} (hl : lookupHand hs p = some h) : (p, h) ∈ hs := by
  induction hs with
  | nil => cases hl
  | cons pr rest ih =>
    obtain ⟨q, h0⟩ := pr
    unfold lookupHand at hl
    split at hl
    · rename_i hq
      cases hl
      subst hq
      exact List.mem_cons_self _ _
    · exact List.mem_cons_of_mem _ (ih hl)

theorem mem_setHand {hs : List (PlayerId × List Card)} {p : PlayerId}
    {h : List Card} {pr : PlayerId × List Card}
    (hm : pr ∈ setHand hs p h) : pr ∈ hs ∨ pr = (p, h) := by
  induction hs with
  | nil => simpa [setHand] using hm
  | cons pr0 rest ih =>
    obtain ⟨q, h0⟩ := pr0
    unfold setHand at hm
    split at hm
    · rcases List.mem_cons.mp hm with h1 | h1
      · rename_i hq
        exact Or.inr (by rw [h1, hq])
      · exact Or.inl (List.mem_cons_of_mem _ h1)
    · rcases List.mem_cons.mp hm with h1 | h1
      · exact Or.inl (h1 ▸ List.mem_cons_self _ _)
      · rcases ih h1 with h2 | h2
        · exact Or.inl (List.mem_cons_of_mem _ h2)
        · exact Or.inr h2

theorem mem_keys_setHand {hs : List (PlayerId × List Card)} {p : PlayerId}
    {h : List Card} {x : PlayerId}
    (hm : x ∈ (setHand hs p h).map (·.1)) : x ∈ hs.map (·.1) ∨ x = p := by
  rcases List.mem_map.mp hm with ⟨pr, hpr, hx⟩
  rcases mem_setHand hpr with h1 | h1
  · exact Or.inl (hx ▸ List.mem_map_of_mem _ h1)
  · exact Or.inr (by rw [← hx, h1])

theorem setHand_keys_nodup {hs : List (PlayerId × List Card)} {p : PlayerId}
    {h : List Card} (hn : (hs.map (·.1)).Nodup) :
    ((setHand hs p h).map (·.1)).Nodup := by
  induction hs with
  | nil => simp [setHand]
  | cons pr0 rest ih =>
    obtain ⟨q, h0⟩ := pr0
    rw [List.map_cons, List.nodup_cons] at hn
    unfold setHand
    split
    · rw [List.map_cons, List.nodup_cons]
      exact hn
    · rename_i hq
      rw [List.map_cons, List.nodup_cons]
      refine ⟨fun hmem => ?_, ih hn.2⟩
      rcases mem_keys_setHand hmem with h1 | h1
      · exact hn.1 h1
      · exact hq h1

theorem findIdx?_self_mem {l : List Card} {x : Card} {i j : Nat}
    (h : List.findIdx? (fun c => c = x) l j = some i) : x ∈ l := by
  induction l generalizing j with
  | nil => simp [List.findIdx?] at h
  | cons a rest ih =>
    rw [List.findIdx?_cons] at h
    by_cases ha : a = x
    · exact ha ▸ List.mem_cons_self _ _
    · rw [decide_eq_false ha] at h
      simp only [Bool.false_eq_true, if_false] at h
      exact List.mem_cons_of_mem _ (ih h)

theorem push3_mem {l : List (Card ⊕ CardColor)} {x y : Card ⊕ CardColor}
    (hm : y ∈ push3 l x) : y ∈ l ∨ y = x := by
  unfold push3 at hm
  rcases List.mem_append.mp hm with h1 | h1
  · split at h1
    · exact Or.inl (List.drop_subset _ _ h1)
    · exact Or.inl h1
  · exact Or.inr (List.mem_singleton.mp h1)

theorem listSwap_mem {l : List Card} {i j : Nat} {a : Card}
    (hm : a ∈ listSwap l i j) : a ∈ l := by
  unfold listSwap at hm
  split at hm
  · rename_i x y hx hy
    rcases List.mem_or_eq_of_mem_set hm with h1 | h1
    · rcases List.mem_or_eq_of_mem_set h1 with h2 | h2
      · exact h2
      · exact h2 ▸ List.getElem?_mem hy
    · exact h1 ▸ List.getElem?_mem hx
  · exact hm

/-- `ValidState` implies the Boolean zod-schema check. -/
theorem valid_to_zod {g : GameState} (hv : ValidState g) :
    zodValidState g = true := by
  obtain ⟨v1, v2, v3, v4, v5, v6, v7, v8⟩ := hv
  unfold zodValidState
  simp only [Bool.and_eq_true, List.all_eq_true, decide_eq_true_eq]
  refine ⟨⟨⟨⟨⟨⟨?_, ?_⟩, ?_⟩, ?_⟩, ?_⟩, ?_⟩, ?_⟩
  · rcases v1 with h | h <;> simp [h]
  · intro pr hpr c hc
    exact v2 pr.1 pr.2 hpr c hc
  · exact v3
  · exact v4
  · exact v5
  · intro x hx
    match x with
    | Sum.inl c => exact v6 c hx
    | Sum.inr _ => rfl
  · intro e he
    match e with
    | .game (.card_played p c) => exact v7 p c he
    | .game (.bluff_called _) => rfl
    | .game (.draw _) => rfl
    | .game (.pass _) => rfl
    | .game (.chooseColor _ _) => rfl
    | .info i =>
      cases hsh : g.shorthandMode with
      | true => exact absurd he (v8 hsh i)
      | false => rfl

/-- Recording an event whose payload card (if any) is shape-valid preserves
the schema invariant. -/
theorem recordEvent_valid {g : GameState} {e : LogEvent} (hv : ValidState g)
    (he : ∀ p c, e = LogEvent.game (.card_played p c) → validCard c = true) :
    ValidState (recordEvent g e) := by
  obtain ⟨v1, v2, v3, v4, v5, v6, v7, v8⟩ := hv
  unfold recordEvent
  split
  · rename_i hsh
    split
    · exact ⟨v1, v2, v3, v4, v5, v6, v7, v8⟩
    · rename_i ge
      refine ⟨v1, v2, v3, v4, v5, v6, ?_, ?_⟩
      · intro p c hmem
        rcases List.mem_append.mp hmem with h1 | h1
        · refine v7 p c ?_
          split at h1
          · exact List.drop_subset _ _ h1
          · exact h1
        · exact he p c (List.mem_singleton.mp h1).symm
      · intro _ i hmem
        rcases List.mem_append.mp hmem with h1 | h1
        · refine v8 hsh i ?_
          split at h1
          · exact List.drop_subset _ _ h1
          · exact h1
        · exact absurd (List.mem_singleton.mp h1) (by simp)
  · rename_i hsh
    refine ⟨v1, v2, v3, v4, v5, v6, ?_, ?_⟩
    · intro p c hmem
      rcases List.mem_append.mp hmem with h1 | h1
      · exact v7 p c h1
      · exact he p c (List.mem_singleton.mp h1).symm
    · intro htrue
      exact absurd htrue hsh

theorem shuffleSteps_valid (n : Nat) {g : GameState} (hv : ValidState g) :
    ValidState (shuffleSteps n g) := by
  induction n generalizing g with
  | zero => exact hv
  | succ n ih =>
    obtain ⟨v1, v2, v3, v4, v5, v6, v7, v8⟩ := hv
    simp only [shuffleSteps, random]
    exact ih ⟨v1, v2, v3, fun c hc => v4 c (listSwap_mem hc), v5, v6, v7, v8⟩

theorem shuffleDeck_valid {g : GameState} (hv : ValidState g) :
    ValidState (shuffleDeck g) := by
  unfold shuffleDeck
  exact recordEvent_valid (shuffleSteps_valid _ hv) (by intro p c h; cases h)

theorem deckTopCard_valid {g g2 : GameState} {c : Card} (hv : ValidState g)
    (h : deckTopCard g = .ok c g2) : validCard c = true ∧ ValidState g2 := by
  unfold deckTopCard at h
  obtain ⟨v1, v2, v3, v4, v5, v6, v7, v8⟩ := hv
  split at h
  · rename_i rest hdeck
    cases h
    refine ⟨v4 c (by rw [hdeck]; exact List.mem_cons_self _ _), ?_⟩
    exact ⟨v1, v2, v3,
      fun c2 hc2 => v4 c2 (by rw [hdeck]; exact List.mem_cons_of_mem _ hc2),
      v5, v6, v7, v8⟩
  · split at h
    · cases h
    · rename_i p ps hpile
      dsimp only at h
      have hv1 : ValidState (shuffleDeck { g with deck := p :: ps }) := by
        refine shuffleDeck_valid ⟨v1, v2, v3, ?_, v5, v6, v7, v8⟩
        intro c2 hc2
        exact v5 c2 (by rw [hpile]; exact hc2)
      obtain ⟨w1, w2, w3, w4, w5, w6, w7, w8⟩ := hv1
      have hv2 : ValidState (recordEvent
          { shuffleDeck { g with deck := p :: ps } with pile := [] }
          (.info .pile_to_deck)) := by
        refine recordEvent_valid ⟨w1, w2, w3, w4, by simp, w6, w7, w8⟩
          (by intro p2 c2 h2; cases h2)
      obtain ⟨u1, u2, u3, u4, u5, u6, u7, u8⟩ := hv2
      split at h
      · rename_i c2 rest hrest
        cases h
        refine ⟨u4 c (by rw [hrest]; exact List.mem_cons_self _ _), ?_⟩
        exact ⟨u1, u2, u3,
          fun c3 hc3 => u4 c3 (by rw [hrest]; exact List.mem_cons_of_mem _ hc3),
          u5, u6, u7, u8⟩
      · cases h

theorem deckTopCard_valid_err {g s : GameState} {e : UErr} (hv : ValidState g)
    (h : deckTopCard g = .err e s) : ValidState s := by
  unfold deckTopCard at h
  obtain ⟨v1, v2, v3, v4, v5, v6, v7, v8⟩ := hv
  split at h
  · cases h
  · split at h
    · cases h
      exact ⟨v1, v2, v3, v4, v5, v6, v7, v8⟩
    · rename_i p ps hpile
      dsimp only at h
      have hv1 : ValidState (shuffleDeck { g with deck := p :: ps }) := by
        refine shuffleDeck_valid ⟨v1, v2, v3, ?_, v5, v6, v7, v8⟩
        intro c2 hc2
        exact v5 c2 (by rw [hpile]; exact hc2)
      obtain ⟨w1, w2, w3, w4, w5, w6, w7, w8⟩ := hv1
      have hv2 : ValidState (recordEvent
          { shuffleDeck { g with deck := p :: ps } with pile := [] }
          (.info .pile_to_deck)) := by
        refine recordEvent_valid ⟨w1, w2, w3, w4, by simp, w6, w7, w8⟩
          (by intro p2 c2 h2; cases h2)
      split at h
      · cases h
      · cases h
        exact hv2

theorem drawN_valid {n : Nat} {g g2 : GameState} {cs : List Card}
    (hv : ValidState g) (h : drawN n g = .ok cs g2) :
    (∀ c ∈ cs, validCard c = true) ∧ ValidState g2 := by
  induction n generalizing g cs with
  | zero =>
    unfold drawN at h
    cases h
    exact ⟨by simp, hv⟩
  | succ n ih =>
    unfold drawN at h
    split at h
    · cases h
    · rename_i c s hdt
      split at h
      · cases h
      · rename_i cs2 s2 hdn
        cases h
        obtain ⟨hc, hs⟩ := deckTopCard_valid hv hdt
        obtain ⟨hcs, hs2⟩ := ih hs hdn
        refine ⟨?_, hs2⟩
        intro c2 hc2
        rcases List.mem_cons.mp hc2 with h1 | h1
        · exact h1 ▸ hc
        · exact hcs c2 h1

theorem drawN_valid_err {n : Nat} {g s : GameState} {e : UErr}
    (hv : ValidState g) (h : drawN n g = .err e s) : ValidState s := by
  induction n generalizing g with
  | zero => cases h
  | succ n ih =>
    unfold drawN at h
    split at h
    · rename_i hdt
      cases h
      exact deckTopCard_valid_err hv hdt
    · rename_i c s2 hdt
      split at h
      · rename_i hdn
        cases h
        exact ih (deckTopCard_valid hv hdt).2 hdn
      · cases h

theorem valid_set_index {g : GameState} (hv : ValidState g) (i : Int) :
    ValidState { g with index := i } := by
  obtain ⟨v1, v2, v3, v4, v5, v6, v7, v8⟩ := hv
  exact ⟨v1, v2, v3, v4, v5, v6, v7, v8⟩

theorem valid_set_stacked {g : GameState} (hv : ValidState g) (n : Nat) :
    ValidState { g with stackedPlusTwos := n } := by
  obtain ⟨v1, v2, v3, v4, v5, v6, v7, v8⟩ := hv
  exact ⟨v1, v2, v3, v4, v5, v6, v7, v8⟩

theorem valid_set_ended {g : GameState} (hv : ValidState g) (b : Bool) :
    ValidState { g with ended := b } := by
  obtain ⟨v1, v2, v3, v4, v5, v6, v7, v8⟩ := hv
  exact ⟨v1, v2, v3, v4, v5, v6, v7, v8⟩

theorem valid_set_players {g : GameState} (hv : ValidState g)
    (ps : List PlayerId) : ValidState { g with players := ps } := by
  obtain ⟨v1, v2, v3, v4, v5, v6, v7, v8⟩ := hv
  exact ⟨v1, v2, v3, v4, v5, v6, v7, v8⟩

theorem valid_flip_turn {g : GameState} (hv : ValidState g) :
    ValidState { g with turnStep := g.turnStep * -1 } := by
  obtain ⟨v1, v2, v3, v4, v5, v6, v7, v8⟩ := hv
  refine ⟨?_, v2, v3, v4, v5, v6, v7, v8⟩
  show g.turnStep * -1 = 1 ∨ g.turnStep * -1 = -1
  rcases v1 with h | h <;> rw [h] <;> simp

theorem valid_hands_set {g : GameState} (hv : ValidState g) {p : PlayerId}
    {h : List Card} (hcards : ∀ c ∈ h, validCard c = true) :
    ValidState { g with hands := setHand g.hands p h } := by
  obtain ⟨v1, v2, v3, v4, v5, v6, v7, v8⟩ := hv
  refine ⟨v1, ?_, setHand_keys_nodup v3, v4, v5, v6, v7, v8⟩
  intro q hq hmem c hc
  rcases mem_setHand hmem with h1 | h1
  · exact v2 q hq h1 c hc
  · cases h1
    exact hcards c hc

theorem valid_play_push {g : GameState} (hv : ValidState g) {card : Card}
    (hc : validCard card = true) :
    ValidState { g with
      last3CardPlayOrColorChanges := push3 g.last3CardPlayOrColorChanges (.inl card)
      pile := g.pile ++ [card] } := by
  obtain ⟨v1, v2, v3, v4, v5, v6, v7, v8⟩ := hv
  refine ⟨v1, v2, v3, v4, ?_, ?_, v7, v8⟩
  · intro c2 hc2
    rcases List.mem_append.mp hc2 with h1 | h1
    · exact v5 c2 h1
    · exact (List.mem_singleton.mp h1) ▸ hc
  · intro c2 hc2
    rcases push3_mem hc2 with h1 | h1
    · exact v6 c2 h1
    · cases h1
      exact hc

theorem valid_color_push {g : GameState} (hv : ValidState g) (col : CardColor) :
    ValidState { g with
      last3CardPlayOrColorChanges := push3 g.last3CardPlayOrColorChanges (.inr col) } := by
  obtain ⟨v1, v2, v3, v4, v5, v6, v7, v8⟩ := hv
  refine ⟨v1, v2, v3, v4, v5, ?_, v7, v8⟩
  intro c2 hc2
  rcases push3_mem hc2 with h1 | h1
  · exact v6 c2 h1
  · cases h1

theorem applyCardPlayed_valid {g : GameState} {by_ : PlayerId} {card : Card}
    {hand : List Card} (hv : ValidState g)
    (hhand : lookupHand g.hands by_ = some hand) :
    ValidState (resState (applyCardPlayed g by_ card hand)) := by
  have hhv : ∀ c ∈ hand, validCard c = true :=
    hv.2.1 by_ hand (lookupHand_mem hhand)
  unfold applyCardPlayed
  dsimp only
  split
  · exact hv
  · rename_i i hidx
    have hcv : validCard card = true := hhv card (findIdx?_self_mem hidx)
    have h1 : ValidState { g with hands := setHand g.hands by_ (hand.eraseIdx i) } :=
      valid_hands_set hv (fun c hc => hhv c (List.eraseIdx_subset _ _ hc))
    have h2 : ValidState (recordEvent
        { g with hands := setHand g.hands by_ (hand.eraseIdx i) }
        (.game (.card_played by_ card))) := recordEvent_valid h1 (by
      intro p c h
      injection h with h2
      injection h2 with hp hc
      rw [← hc]
      exact hcv)
    have h3 := valid_play_push h2 hcv
    set G3 := { recordEvent { g with hands := setHand g.hands by_ (hand.eraseIdx i) }
        (.game (.card_played by_ card)) with
      last3CardPlayOrColorChanges :=
        push3 (recordEvent { g with hands := setHand g.hands by_ (hand.eraseIdx i) }
          (.game (.card_played by_ card))).last3CardPlayOrColorChanges (.inl card)
      pile := (recordEvent { g with hands := setHand g.hands by_ (hand.eraseIdx i) }
          (.game (.card_played by_ card))).pile ++ [card] } with hG3
    have h4 : ValidState (if card.type = CardType.plusTwo
        then { G3 with stackedPlusTwos := G3.stackedPlusTwos + 1 } else G3) := by
      split
      · exact valid_set_stacked h3 _
      · exact h3
    set G4 := (if card.type = CardType.plusTwo
        then { G3 with stackedPlusTwos := G3.stackedPlusTwos + 1 } else G3) with hG4
    have h5 : ValidState (if card.type = CardType.reverse
        then { G4 with turnStep := G4.turnStep * -1 } else G4) := by
      split
      · exact valid_flip_turn h4
      · exact h4
    set G5 := (if card.type = CardType.reverse
        then { G4 with turnStep := G4.turnStep * -1 } else G4) with hG5
    have h6 : ∀ i2 : Int, ValidState (if isColorSwitching card.type then G5
        else { G5 with index := i2 }) := by
      intro i2
      split
      · exact h5
      · exact valid_set_index h5 _
    split
    · rename_i hlk6
      split
      · rename_i loser hpw
        refine valid_set_ended (recordEvent_valid (recordEvent_valid (h6 _)
          (by intro p c h; cases h)) (by intro p c h; cases h)) true
      · exact recordEvent_valid (h6 _) (by intro p c h; cases h)
    · exact h6 _

theorem applyDraw_valid {g : GameState} {by_ : PlayerId} (hv : ValidState g) :
    ValidState (resState (applyDraw g by_)) := by
  unfold applyDraw
  dsimp only
  split
  · rename_i e s hdn
    exact drawN_valid_err hv hdn
  · rename_i cards g1 hdn
    obtain ⟨hcards, hg1⟩ := drawN_valid hv hdn
    split
    · exact hg1
    · rename_i h hlk
      have hhv : ∀ c ∈ h ++ cards, validCard c = true := by
        intro c hc
        rcases List.mem_append.mp hc with h1 | h1
        · exact hg1.2.1 by_ h (lookupHand_mem hlk) c h1
        · exact hcards c h1
      have h2 : ValidState { g1 with hands := setHand g1.hands by_ (h ++ cards) } :=
        valid_hands_set hg1 hhv
      set G2 := { g1 with hands := setHand g1.hands by_ (h ++ cards) } with hG2
      have h3 : ValidState (if drawCountOf g ≠ 1
          then { G2 with index := G2.index + G2.turnStep } else G2) := by
        split
        · exact valid_set_index h2 _
        · exact h2
      exact valid_set_stacked (recordEvent_valid h3 (by intro p c hh; simp at hh)) 0

theorem applyPass_valid {g : GameState} {by_ : PlayerId} (hv : ValidState g) :
    ValidState (resState (applyPass g by_)) := by
  unfold applyPass
  exact valid_set_index (recordEvent_valid hv (by intro p c hh; simp at hh)) _

theorem applyChooseColor_valid {g : GameState} {by_ : PlayerId}
    {color : CardColor} (hv : ValidState g) :
    ValidState (resState (applyChooseColor g by_ color)) := by
  unfold applyChooseColor
  exact valid_set_index
    (recordEvent_valid (valid_color_push hv color) (by intro p c hh; simp at hh)) _

theorem bluffMid_valid {g : GameState} {by_ : PlayerId} (hv : ValidState g) :
    ValidState (bluffMid g by_) := by
  unfold bluffMid
  exact valid_set_index (recordEvent_valid hv (by intro p c hh; simp at hh)) _

theorem applyBluff_valid {g : GameState} {by_ : PlayerId} (hv : ValidState g) :
    ValidState (resState (applyBluff g by_)) := by
  unfold applyBluff
  dsimp only
  split
  · exact hv
  · rename_i sl
    split
    · exact hv
    · rename_i lastPlayerHand hlk
      have hmid := @bluffMid_valid g by_ hv
      split
      · split
        · rename_i e s hdn
          exact drawN_valid_err hmid hdn
        · rename_i cards g2 hdn
          obtain ⟨hcards, hg2⟩ := drawN_valid hmid hdn
          refine recordEvent_valid (valid_hands_set hg2 ?_)
            (by intro p c hh; simp at hh)
          intro c hc
          rcases List.mem_append.mp hc with h1 | h1
          · exact hv.2.1 _ lastPlayerHand (lookupHand_mem hlk) c h1
          · exact hcards c h1
      · split
        · rename_i e s hdn
          exact drawN_valid_err hmid hdn
        · rename_i cards g2 hdn
          obtain ⟨hcards, hg2⟩ := drawN_valid hmid hdn
          split
          · exact hg2
          · rename_i byHand hlk2
            refine recordEvent_valid (valid_hands_set hg2 ?_)
              (by intro p c hh; simp at hh)
            intro c hc
            rcases List.mem_append.mp hc with h1 | h1
            · exact hg2.2.1 by_ byHand (lookupHand_mem hlk2) c h1
            · exact hcards c h1

/-- Applying any domain move — whether it returns or throws — preserves the
schema invariant. -/
theorem processNewEvent_valid {g : GameState} (e : GameEvent)
    (hv : ValidState g) : ValidState (resState (processNewEvent g e)) := by
  unfold processNewEvent
  split
  · exact hv
  · rename_i hand hlk
    split
    · exact hv
    · exact hv
    · split
      · rename_i by_ card heq
        exact applyCardPlayed_valid hv hlk
      · exact applyDraw_valid hv
      · exact applyPass_valid hv
      · exact applyBluff_valid hv
      · exact applyChooseColor_valid hv

theorem joinAll_valid (ids : List PlayerId) {g : GameState} (hv : ValidState g) :
    ValidState (resState (joinAll g ids)) := by
  induction ids generalizing g with
  | nil => exact hv
  | cons p rest ih =>
    unfold joinAll
    split
    · rename_i e s hdn
      exact drawN_valid_err hv hdn
    · rename_i hand g1 hdn
      obtain ⟨hcards, hg1⟩ := drawN_valid hv hdn
      refine ih (recordEvent_valid ?_ (by intro p2 c hh; simp at hh))
      exact valid_hands_set (valid_set_players hg1 _) hcards

theorem join_valid {g : GameState} (ids : List PlayerId) (hv : ValidState g) :
    ValidState (resState (join g ids)) := by
  unfold join
  split
  · exact hv
  · split
    · exact hv
    · exact joinAll_valid ids hv

theorem leave_valid (ids : List PlayerId) {g : GameState} (hv : ValidState g) :
    ValidState (resState (leave g ids)) := by
  induction ids generalizing g with
  | nil => exact hv
  | cons p rest ih =>
    unfold leave
    split
    · exact ih (recordEvent_valid (valid_set_players hv _)
        (by intro p2 c hh; simp at hh))
    · exact hv

theorem replayEvents_valid (evs : List LogEvent) {g : GameState}
    (hv : ValidState g) : ValidState (resState (replayEvents g evs)) := by
  induction evs generalizing g with
  | nil => exact hv
  | cons ev rest ih =>
    unfold replayEvents
    match ev with
    | .info i =>
      dsimp only
      split
      · exact hv
      · rename_i id
        split
        · rename_i e s hj
          have := join_valid [id] hv
          rw [hj] at this
          exact this
        · rename_i r s hj
          have := join_valid [id] hv
          rw [hj] at this
          exact ih this
      · rename_i id
        split
        · rename_i e s hl
          have := leave_valid [id] hv
          rw [hl] at this
          exact this
        · rename_i r s hl
          have := leave_valid [id] hv
          rw [hl] at this
          exact ih this
      · exact ih hv
    | .game e =>
      dsimp only
      split
      · exact ih hv
      · split
        · rename_i er s hp
          have := processNewEvent_valid e hv
          rw [hp] at this
          exact this
        · rename_i r s hp
          have := processNewEvent_valid e hv
          rw [hp] at this
          exact ih this

set_option maxHeartbeats 2000000 in
/-- The state assembled by `init` around an opening card taken from a valid
deck position. -/
theorem init_none_valid {g0 : GameState} (hv0 : ValidState g0) :
    ValidState (init g0 none) := by
  obtain ⟨f1, f2, f3, f4, f5, f6, f7, f8⟩ := hv0
  have hdeckv : ∀ c ∈ DECK, validCard c = true := by decide
  have hsh : ValidState (shuffleDeck { g0 with deck := DECK }) :=
    shuffleDeck_valid ⟨f1, f2, f3, hdeckv, f5, f6, f7, f8⟩
  obtain ⟨w1, w2, w3, w4, w5, w6, w7, w8⟩ := hsh
  unfold init
  dsimp only
  split
  · rename_i ptc g2 hpick
    split at hpick
    · rename_i c hget
      injection hpick with ha hb
      injection ha with hac
      subst hac
      subst hb
      have hcv : validCard c = true := w4 c (List.getElem?_mem hget)
      refine ⟨w1, w2, w3, ?_, ?_, ?_, ?_, ?_⟩
      · exact fun c2 hc2 => w4 c2 (List.eraseIdx_subset _ _ hc2)
      · intro c2 hc2
        cases List.mem_singleton.mp hc2
        exact hcv
      · intro c2 hc2
        cases List.mem_singleton.mp hc2
        exact hcv
      · intro p c2 hc2
        injection List.mem_singleton.mp hc2 with h2
        injection h2 with hp hc3
        rw [hc3]
        exact hcv
      · intro _ i2 hmem
        exact absurd (List.mem_singleton.mp hmem) (by simp)
    · rename_i hget
      injection hpick with ha hb
      subst hb
      have hcv : validCard ptc = true := w4 ptc (List.mem_of_mem_getLast? ha)
      refine ⟨w1, w2, w3, ?_, ?_, ?_, ?_, ?_⟩
      · exact fun c2 hc2 => w4 c2 (List.dropLast_subset _ hc2)
      · intro c2 hc2
        cases List.mem_singleton.mp hc2
        exact hcv
      · intro c2 hc2
        cases List.mem_singleton.mp hc2
        exact hcv
      · intro p c2 hc2
        injection List.mem_singleton.mp hc2 with h2
        injection h2 with hp hc3
        rw [hc3]
        exact hcv
      · intro _ i2 hmem
        exact absurd (List.mem_singleton.mp hmem) (by simp)
  · rename_i g2 hpick
    split at hpick
    · rename_i c hget
      injection hpick with ha hb
      exact (Option.some_ne_none c ha).elim
    · rename_i hget
      injection hpick with ha hb
      subst hb
      refine ⟨w1, w2, w3, ?_, ?_, ?_, ?_, ?_⟩
      · exact fun c2 hc2 => w4 c2 (List.dropLast_subset _ hc2)
      · exact fun c2 hc2 => absurd hc2 (List.not_mem_nil _)
      · exact fun c2 hc2 => absurd hc2 (List.not_mem_nil _)
      · exact fun p c2 hc2 => absurd hc2 (List.not_mem_nil _)
      · exact fun _ i2 => List.not_mem_nil _

/-- A fresh construction satisfies the schema invariant (the deck descends
from the shape-valid `DECK`). -/
theorem mkGame_valid (cfg : GameConfig) (entropy : Nat) :
    ValidState (mkGame cfg entropy) := by
  have hfresh : ValidState (freshState cfg entropy) := by
    refine ⟨Or.inl rfl, ?_, ?_, ?_, ?_, ?_, ?_, ?_⟩ <;> simp [freshState]
  unfold mkGame
  split
  · exact hfresh
  · exact init_none_valid hfresh

theorem valid_events_take {g : GameState} (hv : ValidState g) (n : Nat) :
    ValidState { g with events := g.events.take n } := by
  obtain ⟨v1, v2, v3, v4, v5, v6, v7, v8⟩ := hv
  refine ⟨v1, v2, v3, v4, v5, v6, ?_, ?_⟩
  · exact fun p c hc => v7 p c (List.take_subset _ _ hc)
  · exact fun hsh i hc => v8 hsh i (List.take_subset _ _ hc)

theorem jumpToEventIndex_valid {g : GameState} (entropy : Nat) (i : Int)
    (hv : ValidState g) :
    ValidState (resState (jumpToEventIndex entropy g i)) := by
  unfold jumpToEventIndex
  split
  · exact hv
  · dsimp only
    split
    · exact hv
    · split
      · rename_i e s hrep
        exact valid_events_take hv _
      · rename_i r s hrep
        have h2 : ValidState (resState (replayEvents
            (mkGame { initialSeed := some (.num g.initialSeed) } entropy)
            (g.events.take
              ((if i < 0 then (g.events.length : Int) + i else i).toNat + 1)))) :=
          replayEvents_valid _
            (mkGame_valid { initialSeed := some (.num g.initialSeed) } entropy)
        rw [hrep] at h2
        exact h2

/-- Every reachable engine state satisfies the schema invariant. -/
theorem reachable_valid {g : GameState} (h : Reachable g) : ValidState g := by
  induction h with
  | construct cfg entropy => exact mkGame_valid cfg entropy
  | deser g g' hg hok ih =>
    unfold deserialise serialise at hok
    split at hok
    · cases hok
      exact ih
    · cases hok
  | step g e hg ih => exact processNewEvent_valid e ih
  | join_step g ids hg ih => exact join_valid ids ih
  | leave_step g ids hg ih => exact leave_valid ids ih
  | jump_step g entropy i hg ih => exact jumpToEventIndex_valid entropy i ih

-- ─── C2: serialise / deserialise round-trip ──────────────────────────────────

/-- C2: for every reachable game state, constructing an engine from
`serialise()` succeeds (every reachable state satisfies the zod snapshot
schema, by `reachable_valid`) and yields the identical state, and any shared
sequence of subsequent moves — RNG draws included, since the mutable `seed`
is part of the snapshot — produces equal states on the original and on the
deserialised engine after every move. -/
theorem serialise_roundtrip (g : GameState) (h : Reachable g) :
    ∃ g', deserialise (serialise g) = .ok g' ∧ g' = g ∧
      ∀ moves : List GameEvent, runMoves g' moves = runMoves g moves := by
  refine ⟨g, ?_, rfl, fun _ => rfl⟩
  simp [deserialise, serialise, valid_to_zod (reachable_valid h)]

/-- Witness for C2 at a concrete reachable state: the seed-42 game after
`join("a","b")`. -/
theorem serialise_roundtrip_witness :
    ∃ g', deserialise (serialise c3g2) = .ok g' ∧ g' = c3g2 ∧
      ∀ moves : List GameEvent, runMoves g' moves = runMoves c3g2 moves :=
  serialise_roundtrip c3g2
    (Reachable.join_step c3g0 ["a", "b"] (Reachable.construct _ 0))

-- ─── C7: no partial application of a move ────────────────────────────────────

/-- C7 (code bug): a valid, non-winning `PlayCard` falls through every branch
of `processNewEvent` (the `card_played` branch returns only in the two win
cases) and reaches the final `throw "unreachable"` — with the move already
fully applied.  At the concrete state `c7State`, the play of the red one by
the active player `a` throws, and the observable state after the throw
differs from the state before the call (hand, pile, log and turn index are
all mutated), refuting the claim that every throwing public operation leaves
the state unchanged. -/
theorem play_throws_after_mutation :
    resErr (processNewEvent c7State (.card_played "a" ⟨.one, some .red⟩))
        = some .Unreachable
    ∧ resState (processNewEvent c7State (.card_played "a" ⟨.one, some .red⟩))
        ≠ c7State
    ∧ checkEvent c7State (.card_played "a" ⟨.one, some .red⟩) false = .ok none := by
  refine ⟨by decide, by decide, by decide⟩

-- ─── C3: jumpToEventIndex rebuild ────────────────────────────────────────────

/-- C3 (code bug): replay inside `jumpToEventIndex` feeds every retained
player move back through `processNewEvent`, and a non-winning card play makes
`processNewEvent` throw `"unreachable"` (see C7), so rewinding any full-mode
game whose retained log contains a player card play throws instead of
rebuilding the state and returning the discarded tail.  Concretely: in the
seed-42 game `c3g3` (`join("a","b")` followed by the red reverse played by
`a`), jumping to the latest index (3) throws `"unreachable"`; jumping to
index 2 — whose retained prefix holds no player play — does rebuild, and the
rebuilt state is bit-identical to the organically reached pre-play state
`c3g2`, confirming the intended replay semantics for play-free prefixes. -/
theorem jumpToEventIndex_crashes_on_plays :
    jumpToEventIndex 0 c3g3 3 = .err .Unreachable c3g3
    ∧ jumpToEventIndex 0 c3g3 2
        = .ok [.game (.card_played "a" ⟨.reverse, some .red⟩)] c3g2
    ∧ c3g3.events.length = 4 := by
  refine ⟨by decide, by decide, by decide⟩

-- ─── C8: the player-count ceiling ────────────────────────────────────────────

/-- A draw can fail only with supply exhaustion (or the unreachable guard). -/
theorem deckTopCard_err_kind {g s : GameState} {e : UErr}
    (h : deckTopCard g = .err e s) :
    e = .DeckPileExhausted ∨ e = .Unreachable := by
  unfold deckTopCard at h
  split at h
  · cases h
  · split at h
    · cases h; exact Or.inl rfl
    · dsimp only at h
      split at h
      · cases h
      · cases h; exact Or.inr rfl

/-- A multi-card draw can fail only with supply exhaustion (or the
unreachable guard). -/
theorem drawN_err_kind {n : Nat} {g s : GameState} {e : UErr}
    (h : drawN n g = .err e s) :
    e = .DeckPileExhausted ∨ e = .Unreachable := by
  induction n generalizing g with
  | zero => cases h
  | succ n ih =>
    unfold drawN at h
    split at h
    · rename_i hdt
      cases h
      exact deckTopCard_err_kind hdt
    · split at h
      · rename_i hdn
        cases h
        exact ih hdn
      · cases h

/-- The per-player join loop never throws `TooManyPlayers`. -/
theorem joinAll_no_toomany (ids : List PlayerId) (g : GameState) (n : Nat) :
    resErr (joinAll g ids) ≠ some (.TooManyPlayers n) := by
  induction ids generalizing g with
  | nil => simp [joinAll, resErr]
  | cons p rest ih =>
    unfold joinAll
    split
    · rename_i e s hdn
      rcases drawN_err_kind hdn with h | h <;> simp [resErr, h]
    · exact ih _

/-- C8 (amended): a `join` call throws `too-many-players` exactly when the
active player count at call entry equals 10 (and then changes nothing); a
call entered below the ceiling never throws `too-many-players`, however many
ids it carries — so a single multi-id `join` can push the player count past
10. -/
theorem join_ceiling (g : GameState) (ids : List PlayerId) :
    (g.players.length = MAX_PLAYERS →
      join g ids = .err (.TooManyPlayers MAX_PLAYERS) g)
    ∧ (g.players.length ≠ MAX_PLAYERS →
      ∀ n, resErr (join g ids) ≠ some (.TooManyPlayers n)) := by
  constructor
  · intro h
    unfold join
    rw [h]
    simp
  · intro h n
    unfold join
    rw [if_neg h]
    split
    · simp [resErr]
    · exact joinAll_no_toomany ids g n

/-- Witness for C8: at the ten-player state the call throws and changes
nothing; at a two-player state no `too-many-players` error can arise. -/
theorem join_ceiling_witness :
    join c8StateTen ["x"] = .err (.TooManyPlayers 10) c8StateTen
    ∧ ∀ n, resErr (join c5State ["c"]) ≠ some (.TooManyPlayers n) :=
  ⟨(join_ceiling c8StateTen ["x"]).1 (by decide),
   (join_ceiling c5State ["c"]).2 (by decide)⟩

/-- Counterexample for C8 as stated: a single `join` call with eleven ids on a
fresh engine succeeds — the ceiling is only checked against the count at call
entry — and leaves eleven active players, exceeding the claimed ceiling of
ten. -/
theorem join_ceiling_cex :
    resErr c8Joined = none ∧ (resState c8Joined).players.length = 11 := by
  refine ⟨by decide, by decide⟩

-- ─── C9: hands entries under join and leave ──────────────────────────────────

/-- Filtering out an element leaves a list that does not contain it. -/
theorem contains_filter_ne_false (l : List PlayerId) (p : PlayerId) :
    (l.filter (fun q => !(q = p))).contains p = false := by
  induction l with
  | nil => simp
  | cons q rest ih =>
    by_cases hq : q = p
    · simp [List.filter, hq, ih]
    · have hq2 : ¬p = q := fun h2 => hq h2.symm
      simp [List.filter, hq, ih, hq2]

/-- C9 (amended): a successful single-id `join` installs a 7-card hand entry
for the new player, and a successful single-id `leave` removes the player
from the `players` array but does NOT remove the hand entry: `hands` is left
entirely unchanged, so a departed player keeps their entry (and an
empty-handed player who has not left likewise keeps a 0-length entry, since
only `join` ever writes entries). -/
theorem join_leave_hands (g : GameState) (p : PlayerId) :
    (∀ r s', join g [p] = .ok r s' →
      ∃ h, lookupHand s'.hands p = some h ∧ h.length = 7)
    ∧ (∀ r s', leave g [p] = .ok r s' →
      s'.hands = g.hands ∧ s'.players.contains p = false) := by
  constructor
  · intro r s' hj
    unfold join at hj
    split at hj
    · cases hj
    · split at hj
      · cases hj
      · unfold joinAll at hj
        split at hj
        · cases hj
        · rename_i cards g1 hdn
          unfold joinAll at hj
          cases hj
          refine ⟨cards, ?_, (drawN_ok hdn).1⟩
          rw [recordEvent_hands]
          exact lookupHand_setHand _ _ _
  · intro r s' hl
    unfold leave at hl
    split at hl
    · unfold leave at hl
      cases hl
      constructor
      · rw [recordEvent_hands]
      · rw [recordEvent_players]
        exact contains_filter_ne_false _ _
    · cases hl

/-- Witness for C9 at concrete states: joining `c` to the two-player state
and removing `a` from it. -/
theorem join_leave_hands_witness :
    (∃ h, lookupHand (resState (join c4State ["c"])).hands "c" = some h
       ∧ h.length = 7)
    ∧ (resState (leave c5State ["a"])).hands = c5State.hands
    ∧ (resState (leave c5State ["a"])).players.contains "a" = false := by
  have h1 := (join_leave_hands c4State "c").1
  have h2 := (join_leave_hands c5State "a").2
  have hjok : resErr (join c4State ["c"]) = none := by decide
  have hlok : resErr (leave c5State ["a"]) = none := by decide
  refine ⟨?_, ?_, ?_⟩
  · cases hj : join c4State ["c"] with
    | ok r s' => simpa [resState, hj] using h1 r s' hj
    | err e s' => rw [hj] at hjok; simp [resErr] at hjok
  · cases hl : leave c5State ["a"] with
    | ok r s' => simpa [resState, hl] using (h2 r s' hl).1
    | err e s' => rw [hl] at hlok; simp [resErr] at hlok
  · cases hl : leave c5State ["a"] with
    | ok r s' => simpa [resState, hl] using (h2 r s' hl).2
    | err e s' => rw [hl] at hlok; simp [resErr] at hlok

/-- Counterexample for C9 as stated: in the reachable seed-42 game, after `a`
leaves, the `players` array no longer holds `a` but the `hands` mapping still
carries the full 7-card entry of `a` — a departed player keeps an entry, so
the mapping does not have exactly one entry per joined, not-yet-left
player. -/
theorem leave_keeps_hand_cex :
    resErr c9Left = none
    ∧ (resState c9Left).players = ["b"]
    ∧ ((lookupHand (resState c9Left).hands "a").map List.length) = some 7 := by
  refine ⟨by decide, by decide, by decide⟩

-- ─── C5: the draw count ──────────────────────────────────────────────────────

/-- The specification formula for the draw count agrees with the computation
of the `draw` branch. -/
theorem claimDrawCount_eq (g : GameState) : claimDrawCount g = drawCountOf g := by
  unfold claimDrawCount drawCountOf
  dsimp only
  split
  · split <;> simp [Nat.mul_comm]
  · rfl

/-- C5: whenever a `Draw` is accepted (and the cards can be supplied), the
number of cards drawn is: twice the stacked draw-two count if the preceding
domain move played a draw-two and stacking is enabled; exactly 2 if it played
a draw-two and stacking is disabled; 4 if the domain move two back played a
wild-draw-four; 1 otherwise.  The turn is forfeited (the turn counter
advances by one step) exactly when that count is not 1, and the stacked
draw-two counter is reset to 0. -/
theorem draw_count_correct (g : GameState) (by_ : PlayerId)
    (r : ProcessResult) (s' : GameState)
    (h : processNewEvent g (.draw by_) = .ok r s') :
    ∃ cards, r = .drawing_cards cards
      ∧ cards.length = claimDrawCount g
      ∧ s'.index = g.index + (if claimDrawCount g = 1 then 0 else g.turnStep)
      ∧ s'.stackedPlusTwos = 0 := by
  rw [claimDrawCount_eq]
  unfold processNewEvent at h
  split at h
  · cases h
  · split at h
    · cases h
    · cases h
    · dsimp only at h
      unfold applyDraw at h
      dsimp only at h
      split at h
      · cases h
      · rename_i cards g1 hdn
        split at h
        · cases h
        · rename_i hand1 hlk
          cases h
          obtain ⟨hlen, hh, hi, ht, _, _, _, _, _, _⟩ := drawN_ok hdn
          refine ⟨cards, rfl, by rw [hlen], ?_, rfl⟩
          by_cases hc : drawCountOf g = 1
          · simp [hc, recordEvent_index, hi]
          · simp [hc, recordEvent_index, hi, ht]

/-- Witness for C5 at the concrete state `c5State` (a plain single-card
draw). -/
theorem draw_count_correct_witness :
    ∃ r s' cards, processNewEvent c5State (.draw "a") = .ok r s'
      ∧ r = .drawing_cards cards ∧ cards.length = claimDrawCount c5State
      ∧ s'.index = c5State.index
          + (if claimDrawCount c5State = 1 then 0 else c5State.turnStep)
      ∧ s'.stackedPlusTwos = 0 := by
  cases hd : processNewEvent c5State (.draw "a") with
  | ok r s' =>
    obtain ⟨cards, h1, h2, h3, h4⟩ := draw_count_correct c5State "a" r s' hd
    exact ⟨r, s', cards, rfl, h1, h2, h3, h4⟩
  | err e s' =>
    have hok : resErr (processNewEvent c5State (.draw "a")) = none := by decide
    rw [hd] at hok
    simp [resErr] at hok

-- ─── C4: bluff resolution ────────────────────────────────────────────────────

/-- The Boolean probe agrees with the propositional legality statement. -/
theorem probeOk_iff (g : GameState) (c : Card) :
    probeOk g c = true
      ↔ checkEvent g (.card_played ENGINE_ID c) true = .ok none := by
  cases hck : checkEvent g (.card_played ENGINE_ID c) true with
  | ok v => cases v <;> simp [probeOk, hck]
  | error e => simp [probeOk, hck]

/-- The `.some(...)` over the filtered accused hand agrees with the
specification-side existential. -/
theorem bluffCondition_iff (g : GameState) (by_ : PlayerId) (hand : List Card) :
    ((hand.filter (fun c => !(isColorSwitching c.type))).any
        (fun c => probeOk (bluffMid g by_) c)) = true
      ↔ claimBluffCondition g by_ hand := by
  unfold claimBluffCondition
  simp only [List.any_eq_true, List.mem_filter, probeOk_iff, Bool.not_eq_true']
  constructor
  · rintro ⟨c, ⟨hm, hsw⟩, hck⟩
    exact ⟨c, hm, hsw, hck⟩
  · rintro ⟨c, hm, hsw, hck⟩
    exact ⟨c, ⟨hm, hsw⟩, hck⟩

/-- The state from which the probe runs advances the turn by one step and
leaves hands, mode and the hand lookup untouched. -/
theorem bluffMid_fields (g : GameState) (by_ : PlayerId) :
    (bluffMid g by_).index = g.index + g.turnStep
    ∧ (bluffMid g by_).hands = g.hands
    ∧ (bluffMid g by_).shorthandMode = g.shorthandMode
    ∧ (bluffMid g by_).turnStep = g.turnStep := by
  unfold bluffMid
  refine ⟨?_, ?_, ?_, ?_⟩ <;>
    simp [recordEvent_index, recordEvent_turnStep, recordEvent_hands,
      recordEvent_shorthandMode]

/-- C4: whenever a `CallBluff` is accepted (and the penalty cards can be
supplied), the accused — the author of the wild-draw-four played two domain
moves back — draws 4 cards and a bluff-succeeded administrative event is
recorded if and only if some non-color-switching card of the accused current
hand would have been a legal play under the bluff-site check (`checkEvent`
with `bluffSiteCheck = true`, whose color expectation is taken three entries
back); otherwise the accuser draws 6 cards and a bluff-failed event is
recorded; in both cases the turn advances by exactly one step. -/
theorem bluff_resolution (g : GameState) (by_ accused : PlayerId) (c4 : Card)
    (accusedHand : List Card) (r : ProcessResult) (s' : GameState)
    (hacc : ((lastTwoNonInfoEvents g none)[1]? : Option GameEvent)
              = some (.card_played accused c4))
    (hhand : lookupHand g.hands accused = some accusedHand)
    (h : processNewEvent g (.bluff_called by_) = .ok r s') :
    s'.index = g.index + g.turnStep
    ∧ (claimBluffCondition g by_ accusedHand →
        r = .bluff_call_succeeded by_ accused
        ∧ (∃ cards, cards.length = 4
             ∧ lookupHand s'.hands accused = some (accusedHand ++ cards))
        ∧ (g.shorthandMode = false →
            s'.events.getLast? = some (.info (.bluff_call_succeeded by_ accused))))
    ∧ (¬claimBluffCondition g by_ accusedHand →
        r = .bluff_call_failed by_ accused
        ∧ (∀ byHand, lookupHand g.hands by_ = some byHand →
            ∃ cards, cards.length = 6
              ∧ lookupHand s'.hands by_ = some (byHand ++ cards))
        ∧ (g.shorthandMode = false →
            s'.events.getLast? = some (.info (.bluff_call_failed by_ accused)))) := by
  unfold processNewEvent at h
  dsimp only [eventBy] at h
  split at h
  · cases h
  · rename_i byHand0 hlk0
    split at h
    · cases h
    · cases h
    · unfold applyBluff at h
      rw [hacc] at h
      dsimp only [eventBy] at h
      rw [hhand] at h
      dsimp only at h
      obtain ⟨hmi, hmh, hms, hmt⟩ := bluffMid_fields g by_
      by_cases hb : claimBluffCondition g by_ accusedHand
      · rw [if_pos ((bluffCondition_iff g by_ accusedHand).mpr hb)] at h
        split at h
        · cases h
        · rename_i cards g2 hdn
          cases h
          obtain ⟨hlen, hh2, hi2, _, _, _, _, hsm2, _, _⟩ := drawN_ok hdn
          refine ⟨?_, ?_, ?_⟩
          · simp [recordEvent_index, hi2, hmi]
          · intro _
            refine ⟨rfl, ⟨cards, hlen, ?_⟩, ?_⟩
            · rw [recordEvent_hands]
              exact lookupHand_setHand _ _ _
            · intro hfull
              apply recordEvent_getLast
              simp [hsm2, hms, hfull]
          · intro hnb
            exact absurd hb hnb
      · rw [if_neg (fun hc => hb ((bluffCondition_iff g by_ accusedHand).mp hc))] at h
        split at h
        · cases h
        · rename_i cards g2 hdn
          obtain ⟨hlen, hh2, hi2, _, _, _, _, hsm2, _, _⟩ := drawN_ok hdn
          rw [hh2, hmh, hlk0] at h
          cases h
          refine ⟨?_, ?_, ?_⟩
          · simp [recordEvent_index, hi2, hmi]
          · intro hcb
            exact absurd hcb hb
          · intro _
            refine ⟨rfl, ?_, ?_⟩
            · intro byHand hbh
              rw [hlk0] at hbh
              cases hbh
              refine ⟨cards, hlen, ?_⟩
              rw [recordEvent_hands]
              exact lookupHand_setHand _ _ _
            · intro hfull
              apply recordEvent_getLast
              simp [hsm2, hms, hfull]

/-- Witness for C4 at the concrete state `c4State`: `b` bluffed onto a red
expectation while still holding a red seven, so the call by `a` succeeds and
`b` draws 4. -/
theorem bluff_resolution_witness :
    ∃ r s', processNewEvent c4State (.bluff_called "a") = .ok r s'
      ∧ s'.index = c4State.index + c4State.turnStep
      ∧ r = .bluff_call_succeeded "a" "b"
      ∧ (∃ cards, cards.length = 4
           ∧ lookupHand s'.hands "b"
               = some ([⟨.seven, some .red⟩, ⟨.three, some .blue⟩] ++ cards)) := by
  cases hd : processNewEvent c4State (.bluff_called "a") with
  | ok r s' =>
    have hres := bluff_resolution c4State "a" "b" ⟨.plusFour, none⟩
      [⟨.seven, some .red⟩, ⟨.three, some .blue⟩] r s' (by decide) (by decide) hd
    have hcond : claimBluffCondition c4State "a"
        [⟨.seven, some .red⟩, ⟨.three, some .blue⟩] := by decide
    obtain ⟨h1, h2, h3⟩ := hres.2.1 hcond
    exact ⟨r, s', rfl, hres.1, h1, h2⟩
  | err e s' =>
    have hok : resErr (processNewEvent c4State (.bluff_called "a")) = none := by
      decide
    rw [hd] at hok
    simp [resErr] at hok

-- ─── C6: the expected-card check ─────────────────────────────────────────────

/-- The comparison `expectedType != card.type && (card.color ?? expectedColor)
!= expectedColor` of the source, rephrased through the two axes: the play
passes iff the rank axis is satisfied (an expected rank is present and equals
the rank of the card) or the color axis is satisfied (the card carries no
color, or the expected color is present and equals its color). -/
theorem expectedCardCheck_eq (g : GameState) (b : Bool) (card : Card) :
    expectedCardCheck g b card =
      (if (rankAxisSatisfied (expectedCard g b).1 card
            || colorAxisSatisfied (expectedCard g b).2 card) = true
       then none
       else some (.MustPlayExpectedCard (expectedCard g b).1
                    (expectedCard g b).2 card)) := by
  unfold expectedCardCheck rankAxisSatisfied colorAxisSatisfied
  rcases hp : expectedCard g b with ⟨expT, expC⟩
  dsimp only
  by_cases h1 : expT = some card.type
  · simp [h1]
  · cases hco : card.color with
    | none => simp [h1, hco]
    | some cc =>
      by_cases h2 : (some cc : Option CardColor) = expC
      · simp [h1, hco, h2]
      · simp [h1, hco, h2]

/-- C6 (amended): for every `PlayCard` that passes the player-count,
turn-ownership, game-ended and pending-window checks and is not a
color-switching card played as the last remaining card, the play is rejected
with `must-play-expected-card` iff it fails BOTH axes, where the rank axis is
satisfied exactly when an expected rank is present and equals the rank of the
card (an absent expected rank — top discard color-switching — satisfies no
card), and the color axis is satisfied exactly when the card carries no
color, or the expected color is present and equals the color of the card (an
absent expected color is satisfied only by colorless cards).  The expected
rank is the rank of the top discard card (absent when that card is
color-switching) and the expected color comes from the most recent
`colorHistory` entry, as `expectedCard` computes them. -/
theorem expected_card_check (g : GameState) (by_ : PlayerId) (card : Card)
    (hand : List Card)
    (hpc : ¬(g.players.length < MIN_PLAYERS))
    (hturn : some by_ = activePlayer g)
    (hend : hasEnded g = none)
    (hw1 : pendingColorChoice ((lastTwoNonInfoEvents g none)[0]?)
             (.card_played by_ card) = false)
    (hw2 : pendingPlusTwo ((lastTwoNonInfoEvents g none)[0]?)
             (.card_played by_ card) = false)
    (hw3 : pendingPlusFour ((lastTwoNonInfoEvents g none)[1]?)
             (.card_played by_ card) = false)
    (hhand : lookupHand g.hands by_ = some hand)
    (hnotlast : ¬(isColorSwitching card.type = true ∧ hand.length = 1)) :
    checkEvent g (.card_played by_ card) false =
      .ok (if (rankAxisSatisfied (expectedCard g false).1 card
               || colorAxisSatisfied (expectedCard g false).2 card) = true
           then none
           else some (.MustPlayExpectedCard (expectedCard g false).1
                        (expectedCard g false).2 card)) := by
  unfold checkEvent
  dsimp only [eventBy]
  rw [if_neg (by simp [hpc]), if_neg (by simp [hturn]), hend]
  dsimp only
  rw [show (if (false : Bool) = true then (some (-3 : Int)) else none) = none from rfl]
  rw [hw1, hw2, hw3]
  by_cases hsw : isColorSwitching card.type = true
  · rw [if_pos hsw, hhand]
    dsimp only
    have hne : ¬(hand.length = 1) := fun hl => hnotlast ⟨hsw, hl⟩
    rw [if_neg hne, expectedCardCheck_eq]
    rfl
  · rw [if_neg hsw, expectedCardCheck_eq]
    rfl

/-- Witness for C6 at the concrete state `c7State`: the red one on the red
nine fails the rank axis but satisfies the color axis, so it is accepted. -/
theorem expected_card_check_witness :
    checkEvent c7State (.card_played "a" ⟨.one, some .red⟩) false
      = .ok (if (rankAxisSatisfied (expectedCard c7State false).1 ⟨.one, some .red⟩
                 || colorAxisSatisfied (expectedCard c7State false).2
                     ⟨.one, some .red⟩) = true
             then none
             else some (.MustPlayExpectedCard (expectedCard c7State false).1
                          (expectedCard c7State false).2 ⟨.one, some .red⟩)) :=
  expected_card_check c7State "a" ⟨.one, some .red⟩
    [⟨.one, some .red⟩, ⟨.two, some .blue⟩]
    (by decide) (by decide) (by decide) (by decide) (by decide) (by decide)
    (by decide) (by decide)

/-- Counterexample for C6 as stated: in the reachable seed-1 game `c6g3` (`a`
played a wild and chose blue) the expected rank is ABSENT (the top discard is
the wild) and the expected color is blue.  The claim makes an absent
expectation "a wildcard placing no constraint on that axis", under which the
green skip of `b` matches the (unconstrained) rank axis and must be accepted;
the code rejects it with `must-play-expected-card`. -/
theorem expected_card_wildcard_cex :
    checkEvent c6g3 (.card_played "b" ⟨.skip, some .green⟩) false
      = .ok (some (.MustPlayExpectedCard none (some .blue) ⟨.skip, some .green⟩))
    ∧ expectedCard c6g3 false = (none, some .blue)
    ∧ claimWildcardRejects none (some .blue) ⟨.skip, some .green⟩ = false := by
  refine ⟨by decide, by decide, by decide⟩

end Unocab
